import Mathlib

/-!
Verification development for the Plex media-naming pipeline of the
StreamingCommunity repository (`StreamingCommunity/Util/plex_naming.py`).

The Python module is shallowly embedded: strings are Lean `String`s
(treated as their `List Char` data, adequate for the ASCII inputs the
module processes), every regular expression the module uses is embedded
as an executable scanner with Python `re.search`/`re.sub` leftmost,
greedy-with-backtracking semantics, the TMDB web API is abstracted as an
oracle record of functions (a call that may raise is modelled with
`Except Unit`), and the filesystem is a partial map from paths to file
identifiers.  The embedding follows the source line by line; comments
cite the Python construct being modelled.
-/

namespace PlexSpec

/-- Python `\s` whitespace class (ASCII range, which is what the module meets). -/
def isWs (c : Char) : Bool :=
  c = ' ' ∨ c = '\t' ∨ c = '\n' ∨ c = '\x0d' ∨ c = '\x0b' ∨ c = '\x0c'

/-- Python `\d` digit class. -/
def isDigitC (c : Char) : Bool := '0' ≤ c ∧ c ≤ '9'

/-- Lowercase ASCII letter, Python `[a-z]`. -/
def isLowerAlpha (c : Char) : Bool := 'a' ≤ c ∧ c ≤ 'z'

/-- Python `\w` word class on ASCII input: alphanumeric or underscore. -/
def isWordC (c : Char) : Bool :=
  ('a' ≤ c ∧ c ≤ 'z') ∨ ('A' ≤ c ∧ c ≤ 'Z') ∨ ('0' ≤ c ∧ c ≤ '9') ∨ c = '_'

/-- Separator class `[-\s_]` used by the season/episode patterns. -/
def isSepC (c : Char) : Bool := c = '-' ∨ c = '_' ∨ isWs c

/-- Python `str.lower()` on ASCII input. -/
def lowerStr (s : String) : String := ⟨s.data.map Char.toLower⟩

/-- Numeric value of a digit run, Python `int(match.group(1))`. -/
def digitsToNat (l : List Char) : Nat :=
  l.foldl (fun a c => a * 10 + (c.toNat - '0'.toNat)) 0

/-- Boolean sublist-at-some-position test (Python `a in b` on strings). -/
def isInfixB (p : List Char) : List Char → Bool
  | [] => List.isPrefixOf p []
  | c :: rest => List.isPrefixOf p (c :: rest) || isInfixB p rest

/-- Python `a in b` substring test on strings. -/
def strInfixB (a b : String) : Bool := isInfixB a.data b.data

/-- Python `str.strip()`: drop ASCII whitespace from both ends. -/
def stripList (l : List Char) : List Char :=
  ((l.dropWhile (fun c => isWs c)).reverse.dropWhile (fun c => isWs c)).reverse

theorem length_dropWhile_le (p : α → Bool) (l : List α) :
    (l.dropWhile p).length ≤ l.length := by
  induction l with
  | nil => simp [List.dropWhile]
  | cons c rest ih =>
    by_cases h : p c
    · simp only [List.dropWhile, h, List.length_cons]
      omega
    · simp [List.dropWhile, h]

/-- Python `re.sub(r'\s+', ' ', s)` with explicit fuel (structural recursion
so the kernel can evaluate it; fuel `l.length` always suffices since every
step consumes at least one character). -/
def collapseWsAux : Nat → List Char → List Char
  | 0, l => l
  | _ + 1, [] => []
  | n + 1, c :: rest =>
    if isWs c then ' ' :: collapseWsAux n (rest.dropWhile (fun c => isWs c))
    else c :: collapseWsAux n rest

/-- Python `re.sub(r'\s+', ' ', s)`: each whitespace run becomes one space. -/
def collapseWs (l : List Char) : List Char := collapseWsAux l.length l

/-- Python `s.startswith(pat)` (also used for `os.path` internals). -/
def strStarts (pat s : String) : Bool := List.isPrefixOf pat.data s.data

/-- Python `s.endswith(pat)`. -/
def strEnds (pat s : String) : Bool :=
  List.isPrefixOf pat.data.reverse s.data.reverse

/-- Python `s.split(sep)` for a one-character separator (empty pieces are
kept, the empty string yields `[""]`). -/
def splitOnChar (sep : Char) : List Char → List (List Char)
  | [] => [[]]
  | c :: rest =>
    if c = sep then [] :: splitOnChar sep rest
    else
      match splitOnChar sep rest with
      | h :: t => (c :: h) :: t
      | [] => [[c]]

/-- Python `s.split(sep)` on strings, single-character separator. -/
def strSplitOn (sep : Char) (s : String) : List String :=
  (splitOnChar sep s.data).map (fun l => ⟨l⟩)

/-- Python `sep.join(parts)`. -/
def joinWith (sep : String) : List String → String
  | [] => ""
  | [x] => x
  | x :: xs => x ++ sep ++ joinWith sep xs

/-- Python `s.replace(pat, '')` for a nonempty pattern `p0 :: ps`: every
non-overlapping occurrence removed, scanning left to right (fuel-structural;
fuel `l.length` suffices). -/
def removeAllSubNe (p0 : Char) (ps : List Char) : Nat → List Char → List Char
  | 0, l => l
  | _ + 1, [] => []
  | n + 1, c :: rest =>
    if List.isPrefixOf (p0 :: ps) (c :: rest) then
      removeAllSubNe p0 ps n (rest.drop ps.length)
    else c :: removeAllSubNe p0 ps n rest

/-- Python `s.replace(pat, '')` on strings (an empty pattern with an empty
replacement leaves the string unchanged in Python as well). -/
def strRemoveAll (pat s : String) : String :=
  match pat.data with
  | [] => s
  | p0 :: ps => ⟨removeAllSubNe p0 ps s.data.length s.data⟩

/-- Python `s.split()` with no argument: maximal runs of non-whitespace
(fuel-structural; fuel `l.length` suffices). -/
def wordsOfAux : Nat → List Char → List (List Char)
  | 0, _ => []
  | _ + 1, [] => []
  | n + 1, c :: rest =>
    if isWs c then wordsOfAux n rest
    else (c :: rest.takeWhile (fun d => ¬ isWs d)) ::
      wordsOfAux n (rest.dropWhile (fun d => ¬ isWs d))

/-- Python `s.split()` on character lists. -/
def wordsOf (l : List Char) : List (List Char) := wordsOfAux l.length l

/-- Generic `re.search` driver: `tryAt` decides whether a match starts at the
head of the remaining input; the scan walks left to right and returns the
payload of the leftmost match, exactly Python's search order. -/
def searchAux (tryAt : List Char → Option α) : List Char → Option α
  | [] => none
  | c :: rest =>
    match tryAt (c :: rest) with
    | some a => some a
    | none => searchAux tryAt rest

/-- Generic `re.sub(pat, repl, s)` driver with fuel: `fm` returns the leftmost
match as (start index, length); the match is replaced and scanning resumes
after it, Python's non-overlapping left-to-right replу semantics.  Every
embedded pattern consumes at least one character, so fuel `s.length` is
always enough. -/
def subAllAux (fm : List Char → Option (Nat × Nat)) (repl : List Char) :
    Nat → List Char → List Char
  | 0, s => s
  | n + 1, s =>
    match fm s with
    | none => s
    | some (i, len) =>
      s.take i ++ repl ++ subAllAux fm repl n (s.drop (i + max len 1))

/-- Run a substitution over the whole string. -/
def subAll (fm : List Char → Option (Nat × Nat)) (repl : List Char)
    (s : List Char) : List Char :=
  subAllAux fm repl s.length s

/-- Turn a head matcher (returning match length and payload) into a leftmost
finder returning the start index as well. -/
def findFrom (tryAt : List Char → Option (Nat × α)) :
    List Char → Nat → Option (Nat × Nat × α)
  | [], _ => none
  | c :: rest, i =>
    match tryAt (c :: rest) with
    | some (len, a) => some (i, len, a)
    | none => findFrom tryAt rest (i + 1)

/-- One arm of the language pattern: `n` lowercase letters followed by the
delimiter `(?:_|$|[-\s])`. -/
def tryLangLen (rest : List Char) (n : Nat) : Option String :=
  if (rest.take n).length = n ∧ (rest.take n).all (fun c => isLowerAlpha c) then
    match rest.drop n with
    | [] => some ⟨rest.take n⟩
    | d :: _ => if d = '_' ∨ d = '-' ∨ isWs d then some ⟨rest.take n⟩ else none
  else none

/-- Head matcher for `[-_]([a-z]{2,3})(?:_|$|[-\s])` applied to the lowered
filename (plex_naming.py line 553).  Greedy: three letters are tried before
two, and the trailing delimiter may be `_`, `-`, whitespace or end of input. -/
def tryLanguageAt : List Char → Option String
  | [] => none
  | c :: rest =>
    if c = '-' ∨ c = '_' then
      match tryLangLen rest 3 with
      | some l => some l
      | none => tryLangLen rest 2
    else none

/-- Embedded `re.search` for the language suffix. -/
def findLanguage (nameNoExt : String) : Option String :=
  searchAux tryLanguageAt (lowerStr nameNoExt).data

/-- After an optional literal, match `[-\s_]*(\d+)`: a greedy separator run
followed by at least one digit (the separator and digit classes are disjoint,
so backtracking cannot help and the greedy run is exact). -/
def sepsDigits (l : List Char) : Option Nat :=
  let l' := l.dropWhile (fun c => isSepC c)
  let ds := l'.takeWhile (fun c => isDigitC c)
  if ds = [] then none else some (digitsToNat ds)

/-- Match a literal (case sensitive) at the head, returning the remainder. -/
def matchLit : List Char → List Char → Option (List Char)
  | [], rest => some rest
  | _, [] => none
  | p :: ps, c :: cs => if c = p then matchLit ps cs else none

/-- Head matcher for `[Ss](?:eason|tagione)?[-\s_]*(\d+)` (lines 563/570):
after `S`/`s` the alternatives `eason`, `tagione`, empty are tried in
Python's order. -/
def trySeasonAt : List Char → Option Nat
  | [] => none
  | c :: rest =>
    if c = 'S' ∨ c = 's' then
      match matchLit "eason".data rest with
      | some r =>
        match sepsDigits r with
        | some n => some n
        | none =>
          match matchLit "tagione".data rest with
          | some r' =>
            match sepsDigits r' with
            | some n => some n
            | none => sepsDigits rest
          | none => sepsDigits rest
      | none =>
        match matchLit "tagione".data rest with
        | some r' =>
          match sepsDigits r' with
          | some n => some n
          | none => sepsDigits rest
        | none => sepsDigits rest
    else none

/-- Embedded `re.search` for the season number. -/
def findSeason (s : String) : Option Nat := searchAux trySeasonAt s.data

/-- Head matcher for episode pattern 1, `[Ee][Pp]?[-\s_]*(\d+)`: the optional
`P` is consumed greedily, with fallback to the no-`P` parse. -/
def tryEp1At : List Char → Option Nat
  | [] => none
  | c :: rest =>
    if c = 'E' ∨ c = 'e' then
      match rest with
      | d :: rest' =>
        if d = 'P' ∨ d = 'p' then
          match sepsDigits rest' with
          | some n => some n
          | none => sepsDigits rest
        else sepsDigits rest
      | [] => none
    else none

/-- Head matcher for episode pattern 2, `_EP_(\d+)` (case sensitive). -/
def tryEp2At (l : List Char) : Option Nat :=
  match matchLit "_EP_".data l with
  | some r =>
    let ds := r.takeWhile (fun c => isDigitC c)
    if ds = [] then none else some (digitsToNat ds)
  | none => none

/-- Head matcher for episode pattern 3, `[-\s_](\d{1,3})(?:[-\s_]|$)`: a
separator, one to three digits, then a separator or end.  A digit run longer
than three can never match (the follower after any 1–3 digit slice of it is a
digit, not a separator). -/
def tryEp3At : List Char → Option Nat
  | [] => none
  | c :: rest =>
    if isSepC c then
      let ds := rest.takeWhile (fun c => isDigitC c)
      if ds ≠ [] ∧ ds.length ≤ 3 then
        match rest.drop ds.length with
        | [] => some (digitsToNat ds)
        | d :: _ => if isSepC d then some (digitsToNat ds) else none
      else none
    else none

/-- Match `\s*(\d+)` after a literal: whitespace run then digits. -/
def wsDigits (l : List Char) : Option Nat :=
  let l' := l.dropWhile (fun c => isWs c)
  let ds := l'.takeWhile (fun c => isDigitC c)
  if ds = [] then none else some (digitsToNat ds)

/-- Head matcher for episode pattern 4, `Ep(?:isode)?\s*(\d+)` (case
sensitive literals, optional `isode` tried greedily first). -/
def tryEp4At (l : List Char) : Option Nat :=
  match matchLit "Ep".data l with
  | some r =>
    match matchLit "isode".data r with
    | some r' =>
      match wsDigits r' with
      | some n => some n
      | none => wsDigits r
    | none => wsDigits r
  | none => none

/-- Head matcher for episode pattern 5, `Episodio\s*(\d+)`. -/
def tryEp5At (l : List Char) : Option Nat :=
  match matchLit "Episodio".data l with
  | some r => wsDigits r
  | none => none

/-- Head matcher for episode pattern 6, `#(\d+)`. -/
def tryEp6At : List Char → Option Nat
  | [] => none
  | c :: rest =>
    if c = '#' then
      let ds := rest.takeWhile (fun c => isDigitC c)
      if ds = [] then none else some (digitsToNat ds)
    else none

/-- The ordered episode-pattern list of `_extract_file_info` (lines 582-597):
first pattern with a match anywhere in the name wins. -/
def findEpisode (nameNoExt : String) : Option Nat :=
  let s := nameNoExt.data
  match searchAux tryEp1At s with
  | some n => some n
  | none =>
    match searchAux tryEp2At s with
    | some n => some n
    | none =>
      match searchAux tryEp3At s with
      | some n => some n
      | none =>
        match searchAux tryEp4At s with
        | some n => some n
        | none =>
          match searchAux tryEp5At s with
          | some n => some n
          | none => searchAux tryEp6At s

/-- Head matcher for `\((\d{4})\)` (year in the parent directory, line 689). -/
def tryParenYearAt : List Char → Option String
  | '(' :: rest =>
    let ds := rest.take 4
    if ds.length = 4 ∧ ds.all (fun c => isDigitC c) then
      match rest.drop 4 with
      | ')' :: _ => some ⟨ds⟩
      | _ => none
    else none
  | _ => none

/-- Embedded `re.search(r'\((\d{4})\)', parent_dir)`. -/
def findParenYear (s : String) : Option String := searchAux tryParenYearAt s.data

/-- Head matcher for `(?:\s|_|\()(\d{4})(?:\s|_|\))` (year in the filename,
line 692): the trailing delimiter must be present — a year at the very end of
the name does not match. -/
def trySepYearAt : List Char → Option String
  | [] => none
  | c :: rest =>
    if isWs c ∨ c = '_' ∨ c = '(' then
      let ds := rest.take 4
      if ds.length = 4 ∧ ds.all (fun c => isDigitC c) then
        match rest.drop 4 with
        | d :: _ => if isWs d ∨ d = '_' ∨ d = ')' then some ⟨ds⟩ else none
        | [] => none
      else none
    else none

/-- Embedded `re.search` for the filename year. -/
def findSepYear (s : String) : Option String := searchAux trySepYearAt s.data

/-- Head matcher (length only) for `\s*\([12][0-9]{3}\)` (year tag removal in
the movie title, line 604).  The `\s*` run is exact since `(` is not
whitespace. -/
def tryYearParenAt (l : List Char) : Option Nat :=
  let w := l.takeWhile (fun c => isWs c)
  match l.drop w.length with
  | '(' :: d1 :: d2 :: d3 :: d4 :: ')' :: _ =>
    if (d1 = '1' ∨ d1 = '2') ∧ isDigitC d2 ∧ isDigitC d3 ∧ isDigitC d4 then
      some (w.length + 6)
    else none
  | _ => none

/-- Head matcher (length only) for `\s*\([^)]+\)` (other parenthesised tags,
line 606): the bracketed run extends to the first `)`. -/
def tryAnyParenAt (l : List Char) : Option Nat :=
  let w := l.takeWhile (fun c => isWs c)
  match l.drop w.length with
  | '(' :: rest =>
    let inner := rest.takeWhile (fun c => c ≠ ')')
    if inner = [] then none
    else
      match rest.drop inner.length with
      | ')' :: _ => some (w.length + 1 + inner.length + 1)
      | _ => none
  | _ => none

/-- Leftmost-match finder built from a length-only head matcher. -/
def fmOfLen (tryAt : List Char → Option Nat) (s : List Char) :
    Option (Nat × Nat) :=
  findFrom (fun l => (tryAt l).map (fun n => (n, ()))) s 0 |>.map
    (fun x => (x.1, x.2.1))

/-- Embedded `re.sub(r'\s*\([12][0-9]{3}\)', '', title)`. -/
def subYearParen (s : List Char) : List Char := subAll (fmOfLen tryYearParenAt) [] s

/-- Embedded `re.sub(r'\s*\([^)]+\)', '', title)`. -/
def subAnyParen (s : List Char) : List Char := subAll (fmOfLen tryAnyParenAt) [] s

/-- Case-insensitive literal match at the head, returning the remainder. -/
def matchLitCI : List Char → List Char → Option (List Char)
  | [], rest => some rest
  | _, [] => none
  | p :: ps, c :: cs => if c.toLower = p.toLower then matchLitCI ps cs else none

/-- Head matcher (length only) for `[-_]<lang>(?:_|$|[-\s])` with
`re.IGNORECASE` (language-suffix removal, lines 635 and 774).  The trailing
delimiter is part of the match and is removed with it; `$` consumes nothing. -/
def tryLangSuffixAt (lang : List Char) : List Char → Option Nat
  | [] => none
  | c :: rest =>
    if c = '-' ∨ c = '_' then
      match matchLitCI lang rest with
      | some after =>
        match after with
        | [] => some (1 + lang.length)
        | d :: _ =>
          if d = '_' then some (1 + lang.length + 1)
          else if d = '-' ∨ isWs d then some (1 + lang.length + 1)
          else none
      | none => none
    else none

/-- Embedded `re.sub(r'[-_]' + lang + r'(?:_|$|[-\s])', '', s, re.IGNORECASE)`. -/
def subLangSuffix (lang : String) (s : List Char) : List Char :=
  subAll (fmOfLen (tryLangSuffixAt lang.data)) [] s

/-- Case-insensitive substring test. -/
def infixCI (pat s : List Char) : Bool :=
  isInfixB (pat.map Char.toLower) (s.map Char.toLower)

/-- Head matcher (length only) for `\([^)]*<lang>[^)]*\)` with
`re.IGNORECASE` (line 775): a parenthesised group, delimited by the first
closing parenthesis, whose content contains the language code. -/
def tryLangParenAt (lang : List Char) : List Char → Option Nat
  | '(' :: rest =>
    let inner := rest.takeWhile (fun c => c ≠ ')')
    match rest.drop inner.length with
    | ')' :: _ => if infixCI lang inner then some (1 + inner.length + 1) else none
    | _ => none
  | _ => none

/-- Embedded `re.sub(r'\([^)]*' + lang + r'[^)]*\)', '', s, re.IGNORECASE)`. -/
def subLangParen (lang : String) (s : List Char) : List Char :=
  subAll (fmOfLen (tryLangParenAt lang.data)) [] s

/-- Head matcher (length only) for `[Ss](?:eason|tagione)?[-\s_]*\d+`
(season removal from a series title, line 631). -/
def trySeasonLenAt : List Char → Option Nat
  | [] => none
  | c :: rest =>
    if c = 'S' ∨ c = 's' then
      let sepsDigitsLen : List Char → Nat → Option Nat := fun l consumed =>
        let seps := l.takeWhile (fun c => isSepC c)
        let ds := (l.drop seps.length).takeWhile (fun c => isDigitC c)
        if ds = [] then none else some (consumed + seps.length + ds.length)
      match matchLit "eason".data rest with
      | some r =>
        match sepsDigitsLen r 6 with
        | some n => some n
        | none =>
          match matchLit "tagione".data rest with
          | some r' =>
            match sepsDigitsLen r' 8 with
            | some n => some n
            | none => sepsDigitsLen rest 1
          | none => sepsDigitsLen rest 1
      | none =>
        match matchLit "tagione".data rest with
        | some r' =>
          match sepsDigitsLen r' 8 with
          | some n => some n
          | none => sepsDigitsLen rest 1
        | none => sepsDigitsLen rest 1
    else none

/-- Embedded `re.sub(r'[Ss](?:eason|tagione)?[-\s_]*\d+', '', s)`. -/
def subSeasonPat (s : List Char) : List Char := subAll (fmOfLen trySeasonLenAt) [] s

/-! ### POSIX path helpers (`os.path` on the platform the module targets,
where `os.sep = '/'`). -/

/-- Embedded `os.path.normpath` (POSIX rules: drop empty and `.` components,
resolve `..`, keep a double leading slash, empty result becomes `.`). -/
def normpath (p : String) : String :=
  if p = "" then "." else
  let slashes : Nat :=
    if strStarts "//" p ∧ ¬ strStarts "///" p then 2
    else if strStarts "/" p then 1 else 0
  let comps := strSplitOn '/' p
  let newComps := comps.foldl
    (fun acc comp =>
      if comp = "" ∨ comp = "." then acc
      else if comp ≠ ".." ∨ (slashes = 0 ∧ acc = []) ∨ acc.getLast? = some ".." then
        acc ++ [comp]
      else acc.dropLast)
    []
  let res := ⟨List.replicate slashes '/'⟩ ++ joinWith "/" newComps
  if res = "" then "." else res

/-- Embedded `os.path.basename`: everything after the last `/`. -/
def basename (p : String) : String :=
  ⟨(p.data.reverse.takeWhile (fun c => c ≠ '/')).reverse⟩

/-- Embedded `os.path.dirname`: everything before the last `/`, with trailing
slashes stripped unless the result is all slashes. -/
def dirname (p : String) : String :=
  let after := p.data.reverse.takeWhile (fun c => c ≠ '/')
  if after.length = p.data.length then "" else
  let head := p.data.take (p.data.length - after.length)
  if head.all (fun c => c = '/') then ⟨head⟩
  else ⟨(head.reverse.dropWhile (fun c => c = '/')).reverse⟩

/-- Embedded `os.path.splitext`: split at the last dot of the final path
component, unless every character between the last slash and that dot is
itself a dot. -/
def splitext (p : String) : String × String :=
  let rev := p.data.reverse
  let a := rev.takeWhile (fun c => c ≠ '.' ∧ c ≠ '/')
  match rev.drop a.length with
  | '.' :: rest =>
    let mid := rest.takeWhile (fun c => c ≠ '/')
    if mid.any (fun c => c ≠ '.') then (⟨rest.reverse⟩, ⟨'.' :: a.reverse⟩)
    else (p, "")
  | _ => (p, "")

/-- Embedded `os.path.join` for two components (POSIX): an absolute second
component wins; otherwise a slash is inserted unless one is already there. -/
def pjoin (a b : String) : String :=
  if strStarts "/" b then b
  else if a = "" ∨ strEnds "/" a then a ++ b
  else a ++ "/" ++ b

/-- Python `s.lstrip(os.sep)`. -/
def lstripSlash (s : String) : String := ⟨s.data.dropWhile (fun c => c = '/')⟩

/-! ### Title-cleaning pipelines of the module. -/

/-- Python `s.replace('_', ' ').replace('-', ' ')` (character-wise). -/
def sepToSpace (c : Char) : Char := if c = '_' ∨ c = '-' then ' ' else c

/-- Replacement character map for `re.sub(r'[^\w\s]', ' ', s)`. -/
def nonWordToSpace (c : Char) : Char := if isWordC c ∨ isWs c then c else ' '

/-- Replacement character map for `re.sub(r'[^\w\s()]', ' ', s)`. -/
def nonWordKeepParens (c : Char) : Char :=
  if isWordC c ∨ isWs c ∨ c = '(' ∨ c = ')' then c else ' '

/-- Title clean-up of `_generate_plex_path` (lines 780-782): separators to
spaces, non-word characters except parentheses to spaces, whitespace
collapsed, then stripped. -/
def cleanTitle (s : String) : String :=
  ⟨stripList (collapseWs ((s.data.map sepToSpace).map nonWordKeepParens))⟩

/-- Series-title clean-up of `_extract_file_info` (lines 638-640): same as
`cleanTitle` but parentheses are not preserved. -/
def seriesTitleClean (s : String) : String :=
  ⟨stripList (collapseWs ((s.data.map sepToSpace).map nonWordToSpace))⟩

/-- Search-title clean-up of `search_and_enrich_with_tmdb` (lines 1016-1017):
`re.sub(r'[^\w\s]', ' ', s)` then collapse and strip (underscores are word
characters and survive). -/
def searchClean (s : String) : String :=
  ⟨stripList (collapseWs (s.data.map nonWordToSpace))⟩

/-- Delimiter tail of the language-tag pattern `(?:_|$|[-\s])`, returning the
number of characters it consumes, or `none` when it cannot match. -/
def langDelimLen : List Char → Option Nat
  | [] => some 0
  | d :: _ => if d = '_' ∨ d = '-' ∨ isWs d then some 1 else none

/-- Head matcher (length only) for
`(?i)[-_\s](ita|eng|sub|dub)(?:bed)?(?:_|$|[-\s])` (lines 110, 457, 1241).
The four alternatives start with distinct letters, so at most one applies;
`bed` is consumed greedily with fallback. -/
def tryLangTagAt : List Char → Option Nat
  | [] => none
  | c :: rest =>
    if c = '-' ∨ c = '_' ∨ isWs c then
      let tryAlt : String → Option Nat := fun alt =>
        match matchLitCI alt.data rest with
        | some r =>
          match matchLitCI "bed".data r with
          | some r2 =>
            match langDelimLen r2 with
            | some d => some (1 + alt.length + 3 + d)
            | none =>
              match langDelimLen r with
              | some d => some (1 + alt.length + d)
              | none => none
          | none =>
            match langDelimLen r with
            | some d => some (1 + alt.length + d)
            | none => none
        | none => none
      match tryAlt "ita" with
      | some n => some n
      | none =>
        match tryAlt "eng" with
        | some n => some n
        | none =>
          match tryAlt "sub" with
          | some n => some n
          | none => tryAlt "dub"
    else none

/-- Embedded `re.sub(r'(?i)[-_\s](ita|eng|sub|dub)(?:bed)?(?:_|$|[-\s])', '', s)`. -/
def subLangTag4 (s : List Char) : List Char := subAll (fmOfLen tryLangTagAt) [] s

/-- Embedded `re.sub(r'\.(mp4|avi|mkv|mov)$', '', s)` (line 455): anchored at
the end, so at most the final four characters go. -/
def subExtTag (s : String) : String :=
  if strEnds ".mp4" s ∨ strEnds ".avi" s ∨ strEnds ".mkv" s ∨ strEnds ".mov" s then
    ⟨s.data.take (s.data.length - 4)⟩
  else s

/-- Head matcher (length only) for `s\d+e\d+` (line 456, input already
lowercased). -/
def trySxxExxAt : List Char → Option Nat
  | 's' :: rest =>
    let d1 := rest.takeWhile (fun c => isDigitC c)
    if d1 = [] then none else
    match rest.drop d1.length with
    | 'e' :: r2 =>
      let d2 := r2.takeWhile (fun c => isDigitC c)
      if d2 = [] then none else some (1 + d1.length + 1 + d2.length)
    | _ => none
  | _ => none

/-- Embedded `re.sub(r's\d+e\d+', '', s)`. -/
def subSxxExx (s : List Char) : List Char := subAll (fmOfLen trySxxExxAt) [] s

/-- Head matcher for `(19|20)\d{2}` (line 462). -/
def tryYear1920At : List Char → Option String
  | c1 :: c2 :: c3 :: c4 :: _ =>
    if (c1 = '1' ∧ c2 = '9') ∨ (c1 = '2' ∧ c2 = '0') then
      if isDigitC c3 ∧ isDigitC c4 then some ⟨[c1, c2, c3, c4]⟩ else none
    else none
  | _ => none

/-- Embedded `re.search(r'(19|20)\d{2}', file_name)`. -/
def findYear1920 (s : String) : Option String := searchAux tryYear1920At s.data

/-- Full-anchor test for `^[Ss]\d+$|^Season\s*\d+$` (line 661). -/
def isSeasonFolderName (s : String) : Bool :=
  (match s.data with
   | c :: rest =>
     decide ((c = 'S' ∨ c = 's') ∧ rest ≠ []) && rest.all (fun c => isDigitC c)
   | [] => false) ||
  (match matchLit "Season".data s.data with
   | some r =>
     let r' := r.dropWhile (fun c => isWs c)
     decide (r' ≠ []) && r'.all (fun c => isDigitC c)
   | none => false)

/-! ### Data model -/

/-- The media-type record produced by `_determine_media_type` /
`_identify_media_type_via_tmdb`: the Python dict
`{"type": ..., "is_series": ..., "is_anime": ...}` with an optional
`tmdb_id` key. -/
structure MediaType where
  type : String
  isSeries : Bool
  isAnime : Bool
  tmdbId : Option Nat := none
deriving DecidableEq, Repr

/-- The file-information dict built by `_extract_file_info` and mutated by the
enrichment functions.  Absent-or-`None` dict entries are `none`. -/
structure FileInfo where
  title : Option String := none
  year : Option String := none
  season : Option Nat := none
  episode : Option Nat := none
  language : Option String := none
  tmdbId : Option Nat := none
  episodeTitle : Option String := none
  episodeOverview : Option String := none
  episodeAirDate : Option String := none
  tmdbOriginalName : Option String := none
  tmdbOverview : Option String := none
  tmdbOriginalTitle : Option String := none
  originalTitle : Option String := none
deriving DecidableEq, Repr

/-- Configuration of `PlexNaming.__init__`: the four category folder names,
the library root, and the two feature switches. -/
structure Config where
  filmFolder : String
  serieFolder : String
  animeFolder : String
  animeMovieFolder : String
  rootPath : String
  addSiteName : Bool
  useTmdbIds : Bool
deriving DecidableEq, Repr

/-- Pythonic truthiness of an optional string (`None` and `''` are falsy). -/
def strTruthy : Option String → Bool
  | some s => s ≠ ""
  | none => false

/-- Pythonic truthiness of an optional integer (`None` and `0` are falsy). -/
def natTruthy : Option Nat → Bool
  | some n => n ≠ 0
  | none => false

/-! ### The TMDB catalog capability

The web API consumed through `self.tmdb_api` is abstracted as a record of
functions.  A raw `_make_request` call that can raise is modelled with
`Except Unit`; the popularity score (a float in TMDB, used only through `>`
comparison at line 162) is modelled as an integer-scaled value, which
preserves its ordering behaviour. -/

/-- One entry of `search/movie` results. -/
structure MovieResult where
  id : Nat
  title : String
  releaseDate : Option String := none
  popularity : Int := 0
deriving DecidableEq, Repr

/-- One entry of `search/tv` results. -/
structure TvResult where
  id : Nat
  name : String
  firstAirDate : Option String := none
  popularity : Int := 0
deriving DecidableEq, Repr

/-- The `tv/{id}` detail dict. -/
structure TvDetail where
  name : String
  firstAirDate : Option String := none
  originCountry : List String := []
  genres : List String := []
  originalName : Option String := none
  overview : Option String := none
deriving DecidableEq, Repr

/-- The `movie/{id}` detail dict (fields the module reads). -/
structure MovieDetailRaw where
  productionCountries : List String := []
  genres : List String := []
deriving DecidableEq, Repr

/-- The object returned by client method `get_movie_details`. -/
structure MovieDetails where
  title : String
  releaseDate : Option String := none
  originalTitle : Option String := none
  overview : Option String := none
deriving DecidableEq, Repr

/-- The object returned by client method `get_tv_details` (the
`tmdb_api` one used at line 1267, distinct from `PlexNaming.get_tv_details`). -/
structure TvDetailsObj where
  name : String
  firstAirDate : Option String := none
deriving DecidableEq, Repr

/-- The `tv/{id}/season/{s}/episode/{e}` detail dict. -/
structure EpisodeDetail where
  name : Option String := none
  overview : Option String := none
  airDate : Option String := none
deriving DecidableEq, Repr

/-- The external-capability oracle: every outbound call of the module, plus
`os.path.exists` (read by `_generate_plex_path` at line 739). -/
structure TmdbApi where
  searchMovie : String → Except Unit (List MovieResult)
  searchTv : String → Except Unit (List TvResult)
  tvDetail : Nat → Except Unit TvDetail
  tvKeywords : Nat → Except Unit (List String)
  movieDetailRaw : Nat → Except Unit MovieDetailRaw
  movieKeywords : Nat → Except Unit (List String)
  getMovieDetails : Nat → Except Unit (Option MovieDetails)
  getTvDetailsObj : Nat → Except Unit (Option TvDetailsObj)
  episodeDetail : Nat → Nat → Nat → Except Unit EpisodeDetail
  pathExists : String → Bool

/-- An oracle on which every catalog call fails and no destination folder
exists: the offline behaviour. -/
def offlineApi : TmdbApi where
  searchMovie _ := .error ()
  searchTv _ := .error ()
  tvDetail _ := .error ()
  tvKeywords _ := .error ()
  movieDetailRaw _ := .error ()
  movieKeywords _ := .error ()
  getMovieDetails _ := .error ()
  getTvDetailsObj _ := .error ()
  episodeDetail _ _ _ := .error ()
  pathExists _ := false

/-! ### Classification (`_identify_media_type_via_tmdb`,
`_determine_media_type`) -/

/-- The emergency movie recovery of `_identify_media_type_via_tmdb`
(lines 237-263): reached when the main body raises; a direct movie search
with dots, dashes and underscores spaced out.  Its own failure is swallowed
and yields `None`. -/
def identifyEmergency (api : TmdbApi) (title : String) (year : Option String) :
    Option MediaType :=
  let st : String :=
    ⟨stripList (collapseWs (title.data.map
      (fun c => if c = '.' ∨ c = '-' ∨ c = '_' then ' ' else c)))⟩
  let q := match year with | some y => st ++ " " ++ y | none => st
  match api.searchMovie q with
  | .ok (d :: _) => some ⟨"movie", false, false, some d.id⟩
  | _ => none

/-- Embedded `_identify_media_type_via_tmdb` (lines 94-263): clean the title,
search as movie and as TV, pick the more popular top hit, then inspect
details and keywords for anime markers.  Any raise inside the main body
drops to the emergency recovery. -/
def identifyMediaTypeViaTmdb (api : TmdbApi) (title : String)
    (year : Option String) : Option MediaType :=
  let st : String := ⟨stripList (collapseWs ((subLangTag4 title.data).map sepToSpace))⟩
  let q := match year with | some y => st ++ " " ++ y | none => st
  match api.searchMovie q with
  | .error _ => identifyEmergency api title year
  | .ok movieData =>
    match api.searchTv q with
    | .error _ => identifyEmergency api title year
    | .ok tvData =>
      match movieData, tvData with
      | [], [] => none
      | _, _ =>
        let pick : Bool × Nat :=
          match movieData, tvData with
          | m :: _, t :: _ =>
            if t.popularity > m.popularity then (true, t.id) else (false, m.id)
          | [], t :: _ => (true, t.id)
          | m :: _, [] => (false, m.id)
          | [], [] => (false, 0)
        if pick.1 then
          match api.tvDetail pick.2 with
          | .error _ => identifyEmergency api title year
          | .ok det =>
            match api.tvKeywords pick.2 with
            | .error _ => identifyEmergency api title year
            | .ok kws =>
              let genres := det.genres.map lowerStr
              let kn := kws.map lowerStr
              let isAnime := det.originCountry.contains "JP" ∨
                det.originCountry.contains "Japan" ∨
                genres.contains "animation" ∨ genres.contains "anime" ∨
                kn.contains "anime" ∨ kn.contains "japanese animation"
              if isAnime then some ⟨"anime_series", true, true, some pick.2⟩
              else some ⟨"series", true, false, some pick.2⟩
        else
          match api.movieDetailRaw pick.2 with
          | .error _ => identifyEmergency api title year
          | .ok det =>
            match api.movieKeywords pick.2 with
            | .error _ => identifyEmergency api title year
            | .ok kws =>
              let genres := det.genres.map lowerStr
              let kn := kws.map lowerStr
              let isAnime := det.productionCountries.contains "JP" ∨
                genres.contains "animation" ∨ genres.contains "anime" ∨
                kn.contains "anime" ∨ kn.contains "japanese animation"
              if isAnime then some ⟨"anime_movie", false, true, some pick.2⟩
              else some ⟨"movie", false, false, some pick.2⟩

/-- The anime path/name keyword list (line 380). -/
def animeKeywordList : List String := ["anime", "japan", "jap", "jpn"]

/-- The known anime-series list (lines 383-386). -/
def animeSeriesNames : List String :=
  ["demon slayer", "one piece", "naruto", "attack on titan",
   "boku no hero", "my hero", "dragon ball", "hunter x hunter",
   "death note", "sword art", "fullmetal", "jujutsu kaisen",
   "pokemon", "digimon", "bleach", "chainsaw man"]

/-- The known anime-movie list (lines 389-392). -/
def animeMovieNames : List String :=
  ["your name", "weathering with you", "spirited away",
   "princess mononoke", "howl moving castle", "akira",
   "ghost in the shell", "a silent voice", "grave of the fireflies",
   "my neighbor totoro", "promare", "jujutsu kaisen 0"]

/-- Python `name.replace(' ', '')` on a list entry. -/
def stripSpaces (s : String) : String := ⟨s.data.filter (fun c => c ≠ ' ')⟩

/-- Line 398: separators and dots removed from the (already lowered)
filename before the known-name substring tests. -/
def normFileName (s : String) : String :=
  ⟨s.data.filter (fun c => ¬(c = '-' ∨ c = '_' ∨ c = '.' ∨ c = ' '))⟩

/-- The lowered basename of the normalised path (line 367). -/
def fileNameOf (p : String) : String := lowerStr (basename (normpath p))

/-- Line 399: the filename matches the known anime-movie list. -/
def isKnownAnimeMovie (fileName : String) : Bool :=
  animeMovieNames.any (fun n => strInfixB (stripSpaces n) (normFileName fileName))

/-- Lines 408-409: the filename matches the known anime-series list. -/
def isKnownAnimeSeries (fileName : String) : Bool :=
  animeSeriesNames.any (fun n => strInfixB (stripSpaces n) (normFileName fileName))

/-- Lines 424-429: the path relative to the configured root (every
occurrence of the root removed, leading separators stripped), split into
segments, optionally skipping the site-name folder. -/
def rootParts (cfg : Config) (np : String) : List String :=
  let parts0 := strSplitOn '/' (lstripSlash (strRemoveAll cfg.rootPath np))
  if cfg.addSiteName ∧ parts0 ≠ [] then parts0.drop 1 else parts0

/-- The configured-taxonomy branch of `_determine_media_type`
(lines 423-447): when the root path occurs in the normalised path, the first
segment of the remainder (optionally skipping the site-name folder) selects a
category; `none` means the branch falls through to the catalog attempt. -/
def rootCategory (cfg : Config) (np : String) : Option MediaType :=
  if strInfixB cfg.rootPath np then
    match rootParts cfg np with
    | [] => none
    | p0 :: restParts =>
      if p0 = cfg.filmFolder then some ⟨"movie", false, false, none⟩
      else if p0 = cfg.serieFolder then some ⟨"series", true, false, none⟩
      else if p0 = cfg.animeFolder then
        match restParts with
        | p1 :: _ =>
          if p1 = "Film" ∨ lowerStr p1 = "film" then
            some ⟨"anime_movie", false, true, none⟩
          else if p1 = "Serie" ∨ lowerStr p1 = "serie" then
            some ⟨"anime_series", true, true, none⟩
          else none
        | [] => some ⟨"anime_series", true, true, none⟩
      else none
  else none

/-- Lines 379-395: the anime path/keyword cues on the lowered normalised
path. -/
def isAnimePathName (pathLower : String) : Bool :=
  strInfixB "/anime/" pathLower || strInfixB "/anime\\" pathLower ||
    animeKeywordList.any (fun kw => strInfixB kw pathLower)

/-- Line 412: the series path cue. -/
def isSeriesPathB (pathLower : String) : Bool :=
  strInfixB "/serie/" pathLower || strInfixB "/series/" pathLower ||
    strInfixB "/serie\\" pathLower || strInfixB "/series\\" pathLower

/-- Lines 413-416: the series filename cue. -/
def isSeriesNameB (fileName : String) : Bool :=
  strInfixB "s01" fileName || strInfixB "s02" fileName ||
    strInfixB "stagione" fileName || strInfixB "season" fileName ||
    strInfixB "_ep_" fileName || strInfixB "episodio" fileName ||
    strInfixB "episode" fileName

/-- Lines 453-459: the plausible title derived from the raw basename for the
TMDB attempt. -/
def possibleTitleOf (filePath : String) : String :=
  let pt1 := subExtTag (lowerStr (basename filePath))
  let pt2 := subSxxExx pt1.data
  let pt3 := subLangTag4 pt2
  ⟨stripList (collapseWs (pt3.map
    (fun c => if c = '.' ∨ c = '-' ∨ c = '_' then ' ' else c)))⟩

/-- Lines 478-512: the heuristic fallback when TMDB yields nothing; always
produces a record, defaulting to `movie`. -/
def heuristicFallback (filePath : String) : MediaType :=
  let fileName := fileNameOf filePath
  let pathLower := lowerStr (normpath filePath)
  if isKnownAnimeMovie fileName then ⟨"anime_movie", false, true, none⟩
  else if isAnimePathName pathLower ∨ isKnownAnimeSeries fileName then
    if isSeriesPathB pathLower ∨ isSeriesNameB fileName then
      ⟨"anime_series", true, true, none⟩
    else ⟨"anime_movie", false, true, none⟩
  else if isSeriesPathB pathLower ∨ isSeriesNameB fileName then
    ⟨"series", true, false, none⟩
  else ⟨"movie", false, false, none⟩

/-- Embedded `_determine_media_type` (lines 357-512).  Resolution order as in
the source: the known anime-movie list first (early return at line 402), then
the configured taxonomy, then the TMDB identification, then path/name
heuristics, defaulting to `movie`. -/
def determineMediaType (api : TmdbApi) (cfg : Config) (filePath : String) :
    Option MediaType :=
  if isKnownAnimeMovie (fileNameOf filePath) then
    some ⟨"anime_movie", false, true, none⟩
  else
    match rootCategory cfg (normpath filePath) with
    | some mt => some mt
    | none =>
      match identifyMediaTypeViaTmdb api (possibleTitleOf filePath)
          (findYear1920 (fileNameOf filePath)) with
      | some mt => some mt
      | none => some (heuristicFallback filePath)

/-! ### Attribute extraction (`_extract_file_info`) -/

/-- Length of `[-\s_]*\d+` at the head (digits mandatory). -/
def sepsDigitsLenG (l : List Char) : Option Nat :=
  let seps := l.takeWhile (fun c => isSepC c)
  let ds := (l.drop seps.length).takeWhile (fun c => isDigitC c)
  if ds = [] then none else some (seps.length + ds.length)

/-- Length of `\s*\d+` at the head (digits mandatory). -/
def wsDigitsLenG (l : List Char) : Option Nat :=
  let w := l.takeWhile (fun c => isWs c)
  let ds := (l.drop w.length).takeWhile (fun c => isDigitC c)
  if ds = [] then none else some (w.length + ds.length)

/-- Head matcher (length only) for `[Ee][Pp]?[-\s_]*\d+` (removal list entry
1, line 621; the classes cover both cases so `re.IGNORECASE` is inert). -/
def tryEp1LenAt : List Char → Option Nat
  | [] => none
  | c :: rest =>
    if c = 'E' ∨ c = 'e' then
      match rest with
      | d :: rest' =>
        if d = 'P' ∨ d = 'p' then
          match sepsDigitsLenG rest' with
          | some n => some (2 + n)
          | none => (sepsDigitsLenG rest).map (fun n => 1 + n)
        else (sepsDigitsLenG rest).map (fun n => 1 + n)
      | [] => none
    else none

/-- Head matcher (length only) for `_EP_\d+` with `re.IGNORECASE`
(removal list entry 2, line 622). -/
def tryEp2LenAt (l : List Char) : Option Nat :=
  match matchLitCI "_EP_".data l with
  | some r =>
    let ds := r.takeWhile (fun c => isDigitC c)
    if ds = [] then none else some (4 + ds.length)
  | none => none

/-- Head matcher (length only) for `Ep(?:isode)?\s*\d+` with `re.IGNORECASE`
(removal list entry 3, line 623). -/
def tryEp4LenAt (l : List Char) : Option Nat :=
  match matchLitCI "Ep".data l with
  | some r =>
    match matchLitCI "isode".data r with
    | some r' =>
      match wsDigitsLenG r' with
      | some n => some (7 + n)
      | none => (wsDigitsLenG r).map (fun n => 2 + n)
    | none => (wsDigitsLenG r).map (fun n => 2 + n)
  | none => none

/-- Head matcher (length only) for `Episodio\s*\d+` with `re.IGNORECASE`
(removal list entry 4, line 624). -/
def tryEp5LenAt (l : List Char) : Option Nat :=
  match matchLitCI "Episodio".data l with
  | some r => (wsDigitsLenG r).map (fun n => 8 + n)
  | none => none

/-- Head matcher (length only) for `#\d+` (removal list entry 5, line 625). -/
def tryEp6LenAt : List Char → Option Nat
  | '#' :: rest =>
    let ds := rest.takeWhile (fun c => isDigitC c)
    if ds = [] then none else some (1 + ds.length)
  | _ => none

/-- Sequential application of the five episode-marker removals of
lines 619-627. -/
def removeEpisodeMarks (s : List Char) : List Char :=
  subAll (fmOfLen tryEp6LenAt) []
    (subAll (fmOfLen tryEp5LenAt) []
      (subAll (fmOfLen tryEp4LenAt) []
        (subAll (fmOfLen tryEp2LenAt) []
          (subAll (fmOfLen tryEp1LenAt) [] s))))

/-- Generic-folder names of line 614. -/
def genericDirNames : List String := ["download", "downloads", "temp", "tmp"]

/-- Embedded `_extract_file_info` (lines 514-707).  Works on the raw path
(the function does not normalise), fills language, then season/episode for
series, then the title with its three-way derivation and fallbacks, then the
movie year. -/
def extractFileInfo (filePath : String) (mt : MediaType) : FileInfo :=
  let fileName := basename filePath
  let parentDir := basename (dirname filePath)
  let nameNoExt := (splitext fileName).1
  let language := findLanguage nameNoExt
  let season : Option Nat :=
    if mt.isSeries then
      match findSeason parentDir with
      | some n => some n
      | none =>
        match findSeason nameNoExt with
        | some n => some n
        | none => if mt.isAnime then some 1 else none
    else none
  let episode : Option Nat := if mt.isSeries then findEpisode nameNoExt else none
  let title0 : Option String :=
    if ¬ mt.isSeries then
      some ⟨stripList (subAnyParen (subYearParen nameNoExt.data))⟩
    else if decide (lowerStr parentDir ∈ genericDirNames) ∨ mt.isAnime then
      let t1 := if episode ≠ none then removeEpisodeMarks nameNoExt.data else nameNoExt.data
      let t2 := if season ≠ none then subSeasonPat t1 else t1
      let t3 := match language with
        | some lang => subLangSuffix lang t2
        | none => t2
      some (seriesTitleClean ⟨t3⟩)
    else none
  let title : Option String :=
    if ¬ strTruthy title0 ∧ mt.isSeries then
      let parts := strSplitOn '/' filePath
      match parts.findIdx? (fun part => lowerStr part == "serie" || lowerStr part == "anime") with
      | some i =>
        if i + 1 < parts.length then
          let potential := (parts.drop (i + 1)).headD ""
          if ¬ isSeasonFolderName potential then some potential
          else if i + 2 < parts.length then some potential
          else some parentDir
        else some parentDir
      | none => some parentDir
    else if ¬ strTruthy title0 ∧ ¬ mt.isSeries then some parentDir
    else title0
  let year : Option String :=
    if ¬ mt.isSeries then
      match findParenYear parentDir with
      | some y => some y
      | none => findSepYear nameNoExt
    else none
  { title := title, year := year, season := season, episode := episode,
    language := language }

/-! ### Path building (`_generate_plex_path`) -/

/-- Zero-padded rendering of `f"{n:02d}"` for a natural number. -/
def pad2 (n : Nat) : String := if n < 10 then "0" ++ toString n else toString n

/-- Destination root selection of `_generate_plex_path` (lines 732-763):
category folder by type, with the on-disk check for a dedicated anime-movie
folder and the `Serie/Serie` duplicate-avoidance rule; `none` for an unknown
type (the function then returns the original path). -/
def destFolderFor (api : TmdbApi) (cfg : Config) (mt : MediaType) : Option String :=
  if mt.type = "movie" then some (pjoin cfg.rootPath cfg.filmFolder)
  else if mt.type = "series" then some (pjoin cfg.rootPath cfg.serieFolder)
  else if mt.type = "anime_movie" then
    if cfg.animeMovieFolder ≠ "" ∧
        api.pathExists (pjoin cfg.rootPath cfg.animeMovieFolder) then
      some (pjoin cfg.rootPath cfg.animeMovieFolder)
    else some (pjoin (pjoin cfg.rootPath cfg.animeFolder) "Film")
  else if mt.type = "anime_series" then
    if strInfixB "serie" (lowerStr cfg.animeFolder) ∨
        strInfixB "anime/serie" (lowerStr (pjoin cfg.rootPath cfg.animeFolder)) then
      some (pjoin cfg.rootPath cfg.animeFolder)
    else some (pjoin (pjoin cfg.rootPath cfg.animeFolder) "Serie")
  else none

/-- Embedded `_generate_plex_path` (lines 709-872).  The whole body sits in a
`try`/`except` returning the original path, so the embedding returns the
original path wherever the Python would raise: on a `None` title
(`None.replace` at line 780) and on a `None` season reaching the
`f"s{season_num:02d}e…"` format at line 808. -/
def generatePlexPath (api : TmdbApi) (cfg : Config) (orig : String)
    (info : FileInfo) (mt : MediaType) : String :=
  let ext := (splitext orig).2
  match destFolderFor api cfg mt with
  | none => orig
  | some dest =>
    match info.title with
    | none => orig
    | some rawTitle =>
      let t1 : String := if strTruthy info.language then
          let lang := info.language.getD ""
          ⟨subLangParen lang (subLangSuffix lang rawTitle.data)⟩
        else rawTitle
      let title := cleanTitle t1
      let yearTag : String := if strTruthy info.year then
          " (" ++ info.year.getD "" ++ ")" else ""
      let idTag : String := if cfg.useTmdbIds ∧ natTruthy info.tmdbId then
          " \x7btmdb-" ++ toString (info.tmdbId.getD 0) ++ "\x7d" else ""
      if mt.isSeries then
        let sf := pjoin dest title ++ yearTag
        match info.episode with
        | none => orig
        | some e =>
          if e = 0 then orig
          else
            match info.season with
            | none => orig
            | some s =>
              let epStr := "s" ++ pad2 s ++ "e" ++ pad2 e
              let epTitleTag : String := if strTruthy info.episodeTitle then
                  " - " ++ info.episodeTitle.getD "" else ""
              pjoin (pjoin sf ("Season " ++ toString s))
                (title ++ " - " ++ epStr ++ epTitleTag ++ idTag ++ ext)
      else
        let movieName := title ++ yearTag
        pjoin (pjoin dest movieName) (movieName ++ idTag ++ ext)

/-! ### Enrichment (`search_and_enrich_with_tmdb`,
`_enrich_with_tmdb_metadata`) -/

/-- Python `date[:4] if truthy else None` applied to an optional date. -/
def takeYear : Option String → Option String
  | some f => if f ≠ "" then some ⟨f.data.take 4⟩ else none
  | none => none

/-- Embedded `search_and_enrich_with_tmdb` (lines 991-1098).  The primary
enrichment: it searches unconditionally (there is no check for an already
bound `tmdb_id`), takes the top hit, fetches details, and overwrites
`tmdb_id`, `title` and `year` in the record.  Returns the Python boolean plus
the updated record; every `return False` path leaves the record untouched,
matching the source (all mutations happen after the last fallible call of
their branch, except the internally caught episode lookup). -/
def searchAndEnrichWithTmdb (api : TmdbApi) (info : FileInfo) (mt : MediaType) :
    Bool × FileInfo :=
  match info.title with
  | none => (false, info)
  | some t =>
    if t = "" then (false, info) else
    let st := searchClean t
    if mt.isSeries then
      match api.searchTv st with
      | .error _ => (false, info)
      | .ok [] => (false, info)
      | .ok (tv :: _) =>
        match (api.tvDetail tv.id).toOption with
        | none => (false, info)
        | some d =>
          let info1 := { info with
            tmdbId := some tv.id, title := some d.name,
            year := takeYear d.firstAirDate,
            tmdbOriginalName := d.originalName,
            tmdbOverview := d.overview }
          if natTruthy info1.season ∧ natTruthy info1.episode then
            match (api.episodeDetail tv.id (info1.season.getD 0)
                (info1.episode.getD 0)).toOption with
            | some ed => (true, { info1 with
                episodeTitle := ed.name,
                episodeOverview := ed.overview, episodeAirDate := ed.airDate })
            | none => (true, info1)
          else (true, info1)
    else
      match api.searchMovie st with
      | .error _ => (false, info)
      | .ok [] => (false, info)
      | .ok (m :: _) =>
        match api.getMovieDetails m.id with
        | .error _ => (false, info)
        | .ok none => (false, info)
        | .ok (some md) =>
          (true, { info with
            tmdbId := some m.id, title := some md.title,
            year := takeYear md.releaseDate,
            tmdbOriginalTitle := md.originalTitle,
            tmdbOverview := md.overview })

/-- Embedded `_enrich_with_tmdb_metadata` (lines 1100-1301), the fallback
enricher.  When `media_type` already carries a `tmdb_id` (and the feature is
on) that id is reasserted without any search, with an optional detail
refresh; otherwise movies run the four-strategy search cascade (a raised or
empty strategy falls to the next one) and series run one search.  A `None`
title makes every strategy raise with no mutation. -/
def enrichWithTmdbMetadata (api : TmdbApi) (cfg : Config) (info : FileInfo)
    (mt : MediaType) : FileInfo :=
  if mt.tmdbId.isSome ∧ cfg.useTmdbIds then
    let info1 := { info with tmdbId := mt.tmdbId }
    if ¬ mt.isSeries then
      match api.getMovieDetails (mt.tmdbId.getD 0) with
      | .ok (some md) =>
        { info1 with
          originalTitle := some md.title,
          year := (match md.releaseDate with
            | some r => if r ≠ "" then some ⟨r.data.take 4⟩ else info1.year
            | none => info1.year) }
      | _ => info1
    else info1
  else
    match info.title with
    | none => info
    | some title =>
      if ¬ mt.isSeries then
        let q1 := title ++ (if strTruthy info.year then " " ++ info.year.getD "" else "")
        match api.searchMovie q1 with
        | .ok (d :: _) => { info with tmdbId := some d.id }
        | _ =>
          let clean := searchClean title
          let q2 := clean ++ (if strTruthy info.year then " " ++ info.year.getD "" else "")
          match api.searchMovie q2 with
          | .ok (d :: _) => { info with tmdbId := some d.id }
          | _ =>
            match api.searchMovie clean with
            | .ok (d :: _) => { info with tmdbId := some d.id }
            | _ =>
              let words := (wordsOf title.data).map (fun l => (⟨l⟩ : String))
              let keywords := joinWith " " (words.take 3)
              match api.searchMovie keywords with
              | .ok (d :: _) => { info with tmdbId := some d.id }
              | _ => info
      else
        let st : String :=
          ⟨stripList (collapseWs ((subLangTag4 title.data).map sepToSpace))⟩
        let q := if mt.isAnime then st ++ " anime" else st
        match api.searchTv q with
        | .ok (d :: _) =>
          match api.getTvDetailsObj d.id with
          | .ok (some tvd) =>
            { info with
              tmdbId := some d.id, originalTitle := some tvd.name,
              year := (match tvd.firstAirDate with
                | some f => if f ≠ "" then some ⟨f.data.take 4⟩ else info.year
                | none => info.year) }
          | _ => info
        | _ => info

/-! ### The top-level pipeline (`process_downloaded_file`) -/

/-- Lines 908-912: copy a classification-phase `tmdb_id` into the file
record when TMDB ids are enabled. -/
def transferTmdbId (cfg : Config) (info : FileInfo) (mt : MediaType) : FileInfo :=
  if mt.tmdbId.isSome ∧ cfg.useTmdbIds then { info with tmdbId := mt.tmdbId }
  else info

/-- Lines 914-922: the enrichment step of `process_downloaded_file` — the
new full-search system first, the old enricher only when it reports
failure. -/
def enrichPhase (api : TmdbApi) (cfg : Config) (info : FileInfo)
    (mt : MediaType) : FileInfo :=
  if cfg.useTmdbIds then
    match searchAndEnrichWithTmdb api info mt with
    | (true, i) => i
    | (false, i) => enrichWithTmdbMetadata api cfg i mt
  else info

/-- The computational part of `process_downloaded_file` (lines 893-925):
classify, extract, transfer the bound id, enrich, generate.  Exposes the
media type, the final record and the generated path. -/
def processPipeline (api : TmdbApi) (cfg : Config) (filePath : String) :
    Option (MediaType × FileInfo × String) :=
  match determineMediaType api cfg filePath with
  | none => none
  | some mt =>
    let info1 := transferTmdbId cfg (extractFileInfo filePath mt) mt
    let info2 := enrichPhase api cfg info1 mt
    some (mt, info2, generatePlexPath api cfg filePath info2 mt)

/-- The path `_generate_plex_path` produces for a file, or the file itself
when classification yields nothing (line 895-897). -/
def genOf (api : TmdbApi) (cfg : Config) (filePath : String) : String :=
  match processPipeline api cfg filePath with
  | some x => x.2.2
  | none => filePath

/-- The filesystem, abstracted to regular files: a partial map from absolute
paths to file identities.  Directory creation (`os.makedirs(exist_ok=True)`)
always succeeds and is not tracked. -/
def Fs : Type := String → Option Nat

/-- Embedded `shutil.move(src, dst)` for the same-filesystem case the module
relies on: `os.rename`, which raises if the source is missing and silently
replaces an existing regular file at the destination (POSIX rename; the
cross-device `copy2` + `unlink` fallback overwrites likewise).  `none` is the
raised exception. -/
def shutilMove (src dst : String) (fs : Fs) : Option Fs :=
  match fs src with
  | none => none
  | some v => some (fun p => if p = dst then some v else if p = src then none else fs p)

/-- Embedded `process_downloaded_file` (lines 875-951) over the filesystem
model: compute the new path; when it differs, move (an exception is caught,
logged — the reported failure — and the original path returned).  Result:
final path, filesystem after the call, and whether a move failure was
reported. -/
def processDownloadedFile (api : TmdbApi) (cfg : Config) (fs : Fs)
    (filePath : String) : String × Fs × Bool :=
  match processPipeline api cfg filePath with
  | none => (filePath, fs, false)
  | some (_, _, newPath) =>
    if newPath ≠ filePath then
      match shutilMove filePath newPath fs with
      | some fs' => (newPath, fs', false)
      | none => (filePath, fs, true)
    else (newPath, fs, false)

/-! ### Observables used by the claims -/

/-- One path is an initial segment of another (it lies under that folder). -/
def strPfx (a b : String) : Prop := a.data <+: b.data

/-- One string occurs inside another. -/
def strInf (a b : String) : Prop := a.data <:+: b.data

/-- An `sNNeMM` episode code starts here: `s`, two digits, `e`, two digits. -/
def epCodeAt : List Char → Bool
  | 's' :: a :: b :: 'e' :: c :: d :: _ =>
    isDigitC a && isDigitC b && isDigitC c && isDigitC d
  | _ => false

/-- Some position of the string satisfies the position test. -/
def anyPos (p : List Char → Bool) : List Char → Bool
  | [] => p []
  | c :: r => p (c :: r) || anyPos p r

/-- The string contains a zero-padded `sNNeMM` episode code. -/
def hasEpCode (s : String) : Bool := anyPos epCodeAt s.data

/-- Number of (possibly overlapping) occurrences of a nonempty pattern. -/
def occCount (pat : List Char) : List Char → Nat
  | [] => 0
  | c :: rest =>
    (if List.isPrefixOf pat (c :: rest) then 1 else 0) + occCount pat rest

/-- The four category names of the data model. -/
def validTypes : List String := ["movie", "series", "anime_movie", "anime_series"]

/-! ### Shape lemmas for the classifier -/

theorem identifyMediaTypeViaTmdb_shape (api : TmdbApi) (t : String)
    (y : Option String) (mt : MediaType)
    (h : identifyMediaTypeViaTmdb api t y = some mt) :
    mt.type ∈ validTypes := by
  unfold identifyMediaTypeViaTmdb identifyEmergency at h
  dsimp only at h
  repeat' split at h
  all_goals
    first
      | (injection h with h'; subst h'; simp [validTypes])
      | exact absurd h (by simp)

theorem rootCategory_shape (cfg : Config) (np : String) (mt : MediaType)
    (h : rootCategory cfg np = some mt) : mt.type ∈ validTypes := by
  unfold rootCategory at h
  rcases hp : rootParts cfg np with _ | ⟨p0, restParts⟩ <;>
    rw [hp] at h <;> repeat' split at h
  all_goals
    first
      | (injection h with h'; subst h'; simp [validTypes])
      | exact absurd h (by simp)

theorem heuristicFallback_shape (p : String) :
    (heuristicFallback p).type ∈ validTypes := by
  unfold heuristicFallback
  dsimp only
  repeat' split
  all_goals simp [validTypes]

/-- CLAIM C2 — for every input path (and any catalog behaviour and
configuration), `_determine_media_type` terminates and returns a media-type
record (never `None`) whose `type` is exactly one of `movie`, `series`,
`anime_movie`, `anime_series`; in particular, when no path, catalog or
heuristic signal fires, the returned record is the `movie` default. -/
theorem determineMediaType_total (api : TmdbApi) (cfg : Config) (p : String) :
    ∃ mt, determineMediaType api cfg p = some mt ∧ mt.type ∈ validTypes := by
  unfold determineMediaType
  by_cases hk : isKnownAnimeMovie (fileNameOf p) = true
  · simp only [hk, if_true]
    exact ⟨_, rfl, by simp [validTypes]⟩
  · simp only [Bool.not_eq_true] at hk
    simp only [hk, Bool.false_eq_true, if_false]
    rcases hr : rootCategory cfg (normpath p) with _ | mtr
    · rcases hi : identifyMediaTypeViaTmdb api (possibleTitleOf p)
          (findYear1920 (fileNameOf p)) with _ | mti
      · exact ⟨_, rfl, heuristicFallback_shape p⟩
      · exact ⟨mti, rfl, identifyMediaTypeViaTmdb_shape _ _ _ _ hi⟩
    · exact ⟨mtr, rfl, rootCategory_shape _ _ _ hr⟩

/-- CLAIM C4 — for a series-category input (`series` or `anime_series`,
`is_series` set) whose record has no resolved episode number,
`_generate_plex_path` returns the original path unchanged. -/
theorem generatePlexPath_noEpisode_noop (api : TmdbApi) (cfg : Config)
    (orig : String) (info : FileInfo) (mt : MediaType)
    (hser : mt.isSeries = true)
    (_hty : mt.type = "series" ∨ mt.type = "anime_series")
    (hep : info.episode = none) :
    generatePlexPath api cfg orig info mt = orig := by
  unfold generatePlexPath
  repeat' split
  all_goals simp_all

/-- Witness for C4 at a concrete series input. -/
theorem generatePlexPath_noEpisode_noop_witness :
    generatePlexPath offlineApi ⟨"Movies", "Series", "Anime", "Anime/Film", "/r", false, false⟩
      "/r/Series/X/x.mp4" { title := some "X" } ⟨"series", true, false, none⟩ =
      "/r/Series/X/x.mp4" :=
  generatePlexPath_noEpisode_noop _ _ _ _ _ rfl (Or.inl rfl) rfl

/-! ### Language detection (claim C10) -/

theorem searchAux_some {α : Type} (tryAt : List Char → Option α) (l : List Char)
    (a : α) (h : searchAux tryAt l = some a) :
    ∃ pre suf, l = pre ++ suf ∧ tryAt suf = some a := by
  induction l with
  | nil => simp [searchAux] at h
  | cons c rest ih =>
    simp only [searchAux] at h
    cases htry : tryAt (c :: rest) with
    | some b =>
      rw [htry] at h
      exact ⟨[], c :: rest, rfl, by rw [htry]; exact h⟩
    | none =>
      rw [htry] at h
      obtain ⟨pre, suf, heq, hm⟩ := ih h
      exact ⟨c :: pre, suf, by simp [heq], hm⟩

theorem tryLangLen_spec (rest : List Char) (n : Nat) (l : String)
    (h : tryLangLen rest n = some l) :
    l.data = rest.take n ∧ (rest.take n).length = n ∧
      (rest.take n).all (fun c => isLowerAlpha c) = true ∧
      (rest.drop n = [] ∨
        ∃ d t, rest.drop n = d :: t ∧ (d = '_' ∨ d = '-' ∨ isWs d = true)) := by
  unfold tryLangLen at h
  split at h
  · rename_i hcond
    split at h
    · rename_i hnil
      injection h with h'
      subst h'
      exact ⟨rfl, hcond.1, hcond.2, Or.inl hnil⟩
    · rename_i d t hcons
      split at h
      · rename_i hd
        injection h with h'
        subst h'
        exact ⟨rfl, hcond.1, hcond.2, Or.inr ⟨d, t, hcons, hd⟩⟩
      · exact absurd h (by simp)
  · exact absurd h (by simp)

/-- CLAIM C10 — a language code is extracted only when a 2–3 letter lowercase
token is immediately preceded by `-` or `_` and followed by `_`, `-`,
whitespace or the end of the name; consequently a dot-delimited language
token as in `Breaking.Bad.S01E01.ita.mp4` leaves the language field unset. -/
theorem language_detection_characterised :
    (∀ (s : String) (l : String), findLanguage s = some l →
      ∃ pre d post, (lowerStr s).data = pre ++ d :: (l.data ++ post) ∧
        (d = '-' ∨ d = '_') ∧ l.data.all (fun c => isLowerAlpha c) = true ∧
        (l.data.length = 2 ∨ l.data.length = 3) ∧
        (post = [] ∨ ∃ e t, post = e :: t ∧ (e = '_' ∨ e = '-' ∨ isWs e = true))) ∧
    (extractFileInfo "/r/Series/Breaking Bad/Breaking.Bad.S01E01.ita.mp4"
        ⟨"series", true, false, none⟩).language = none := by
  constructor
  · intro s l h
    obtain ⟨pre, suf, heq, hm⟩ := searchAux_some _ _ _ h
    cases suf with
    | nil => exact absurd hm (by simp [tryLanguageAt])
    | cons c rest =>
      simp only [tryLanguageAt] at hm
      split at hm
      · rename_i hc
        have main : l.data = rest.take 3 ∧ (rest.take 3).length = 3 ∧
            (rest.take 3).all (fun c => isLowerAlpha c) = true ∧
            (rest.drop 3 = [] ∨ ∃ d t, rest.drop 3 = d :: t ∧
              (d = '_' ∨ d = '-' ∨ isWs d = true)) ∨
            l.data = rest.take 2 ∧ (rest.take 2).length = 2 ∧
            (rest.take 2).all (fun c => isLowerAlpha c) = true ∧
            (rest.drop 2 = [] ∨ ∃ d t, rest.drop 2 = d :: t ∧
              (d = '_' ∨ d = '-' ∨ isWs d = true)) := by
          cases h3 : tryLangLen rest 3 with
          | some l3 =>
            rw [h3] at hm
            injection hm with h'
            subst h'
            exact Or.inl (tryLangLen_spec _ _ _ h3)
          | none =>
            rw [h3] at hm
            exact Or.inr (tryLangLen_spec _ _ _ hm)
        rcases main with ⟨hl, hlen, hall, hdel⟩ | ⟨hl, hlen, hall, hdel⟩ <;>
          refine ⟨pre, c, rest.drop _, ?_, hc, hl ▸ hall, ?_, hdel⟩
        · rw [heq]
          simp [hl, List.take_append_drop]
        · right; rw [hl]; exact hlen
        · rw [heq]
          simp [hl, List.take_append_drop]
        · left; rw [hl]; exact hlen
      · exact absurd hm (by simp)
  · rfl

/-- Witness for C10: a detected language at a concrete input satisfying the
characterisation. -/
theorem language_detection_characterised_witness :
    ∃ pre d post, (lowerStr "breaking bad-ita").data = pre ++ d :: ("ita".data ++ post) ∧
      (d = '-' ∨ d = '_') ∧ "ita".data.all (fun c => isLowerAlpha c) = true ∧
      ("ita".data.length = 2 ∨ "ita".data.length = 3) ∧
      (post = [] ∨ ∃ e t, post = e :: t ∧ (e = '_' ∨ e = '-' ∨ isWs e = true)) :=
  language_detection_characterised.1 "breaking bad-ita" "ita" (by rfl)

/-! ### Relocation and the top-level entry point (claims C6, C7) -/

/-- The test configuration matching the spec scenarios: `Movies`, `Series`,
`Anime` folders under root `/r`, no site-name segment, TMDB ids off. -/
def cfgA : Config := ⟨"Movies", "Series", "Anime", "Anime/Film", "/r", false, false⟩

/-- The Avatar scenario input under the movie root. -/
def srcAvatar : String := "/r/Movies/Avatar_2009.mp4"

/-- The destination the pipeline computes for the Avatar input. -/
def dstAvatar : String := "/r/Movies/Avatar 2009/Avatar 2009.mp4"

/-- A filesystem holding the Avatar file (id 1) and an unrelated file (id 2)
already sitting in its destination slot. -/
def fsColl : Fs := fun q =>
  if q = dstAvatar then some 2 else if q = srcAvatar then some 1 else none

/-- CLAIM C6 — the top-level entry point always returns some path (the
original or the generated one; in the embedding totality stands for
"never raises"), and whenever the move step fails the failure is caught and
reported and the original path is returned with the filesystem untouched. -/
theorem processDownloadedFile_safe (api : TmdbApi) (cfg : Config) (fs : Fs)
    (p : String) :
    ((processDownloadedFile api cfg fs p).1 = p ∨
      (processDownloadedFile api cfg fs p).1 = genOf api cfg p) ∧
    ((processDownloadedFile api cfg fs p).2.2 = true →
      (processDownloadedFile api cfg fs p).1 = p ∧
        (processDownloadedFile api cfg fs p).2.1 = fs) := by
  unfold processDownloadedFile genOf
  rcases hp : processPipeline api cfg p with _ | ⟨mt, info, np⟩ <;>
    simp only [hp]
  · simp
  · split
    · cases hmv : shutilMove p np fs with
      | some fs' => simp [hmv]
      | none => simp [hmv]
    · simp_all

/-- Witness instance of C6 on a concrete input with a missing source file. -/
theorem processDownloadedFile_safe_witness :
    ((processDownloadedFile offlineApi cfgA (fun _ => none) srcAvatar).1 = srcAvatar ∨
      (processDownloadedFile offlineApi cfgA (fun _ => none) srcAvatar).1 =
        genOf offlineApi cfgA srcAvatar) ∧
    ((processDownloadedFile offlineApi cfgA (fun _ => none) srcAvatar).2.2 = true →
      (processDownloadedFile offlineApi cfgA (fun _ => none) srcAvatar).1 = srcAvatar ∧
        (processDownloadedFile offlineApi cfgA (fun _ => none) srcAvatar).2.1 =
          (fun _ => none)) :=
  processDownloadedFile_safe offlineApi cfgA (fun _ => none) srcAvatar

/-- Counterexample to C7 — with an unrelated file (id 2) already at the
destination slot, the relocation does not fail: it returns the new path,
replaces the existing destination file with the moved one (id 1), empties the
original slot, and reports no failure. -/
theorem relocation_clobbers_cex :
    fsColl dstAvatar = some 2 ∧
    genOf offlineApi cfgA srcAvatar = dstAvatar ∧
    (processDownloadedFile offlineApi cfgA fsColl srcAvatar).1 = dstAvatar ∧
    (processDownloadedFile offlineApi cfgA fsColl srcAvatar).2.1 dstAvatar = some 1 ∧
    (processDownloadedFile offlineApi cfgA fsColl srcAvatar).2.1 srcAvatar = none ∧
    (processDownloadedFile offlineApi cfgA fsColl srcAvatar).2.2 = false := by
  refine ⟨by decide, by decide, by decide, by decide, by decide, by decide⟩

/-- CLAIM C7 (amended) — when the generated destination differs from the
source and both source and destination slots hold files, `shutil.move`
overwrites the destination: afterwards the destination slot holds the moved
file, the source slot is empty, the new path is returned and no failure is
reported. -/
theorem relocation_overwrites_existing (api : TmdbApi) (cfg : Config) (fs : Fs)
    (p : String) (i j : Nat)
    (hne : genOf api cfg p ≠ p) (hsrc : fs p = some i)
    (_hcol : fs (genOf api cfg p) = some j) :
    (processDownloadedFile api cfg fs p).1 = genOf api cfg p ∧
    (processDownloadedFile api cfg fs p).2.1 (genOf api cfg p) = some i ∧
    (processDownloadedFile api cfg fs p).2.1 p = none ∧
    (processDownloadedFile api cfg fs p).2.2 = false := by
  unfold processDownloadedFile
  unfold genOf at hne ⊢
  rcases hp : processPipeline api cfg p with _ | ⟨mt, info, np⟩ <;>
    simp only [hp] at hne ⊢
  · exact absurd rfl hne
  · rw [if_pos hne]
    unfold shutilMove
    rw [hsrc]
    dsimp only
    refine ⟨rfl, by simp, ?_, rfl⟩
    rw [if_neg (fun hpe => hne hpe.symm), if_pos rfl]

/-- Witness instance of C7's amended statement on the Avatar collision. -/
theorem relocation_overwrites_existing_witness :
    (processDownloadedFile offlineApi cfgA fsColl srcAvatar).1 =
      genOf offlineApi cfgA srcAvatar ∧
    (processDownloadedFile offlineApi cfgA fsColl srcAvatar).2.1
      (genOf offlineApi cfgA srcAvatar) = some 1 ∧
    (processDownloadedFile offlineApi cfgA fsColl srcAvatar).2.1 srcAvatar = none ∧
    (processDownloadedFile offlineApi cfgA fsColl srcAvatar).2.2 = false :=
  relocation_overwrites_existing offlineApi cfgA fsColl srcAvatar 1 2
    (by decide) (by decide) (by decide)

/-! ### Taxonomy-first classification (claim C3) -/

/-- An oracle that answers every search with an empty result list. -/
def emptyOkApi : TmdbApi := { offlineApi with
  searchMovie := fun _ => .ok []
  searchTv := fun _ => .ok [] }

/-- Counterexample to C3 — the file `your_name.mp4` placed directly under the
configured movie folder: the taxonomy segment says `movie`, but
classification returns `anime_movie` because the known anime-movie list is
consulted first. -/
theorem taxonomy_first_cex :
    rootCategory cfgA (normpath "/r/Movies/your_name.mp4") =
      some ⟨"movie", false, false, none⟩ ∧
    determineMediaType offlineApi cfgA "/r/Movies/your_name.mp4" =
      some ⟨"anime_movie", false, true, none⟩ ∧
    (⟨"anime_movie", false, true, none⟩ : MediaType) ≠ ⟨"movie", false, false, none⟩ := by
  refine ⟨by decide, by decide, by decide⟩

/-- CLAIM C3 (amended) — when the filename does not match the known
anime-movie list, a path whose taxonomy segment resolves a category is
classified as that category immediately, and the result is independent of the
catalog oracle (no catalog query can influence it). -/
theorem taxonomy_decides_without_catalog (api api' : TmdbApi) (cfg : Config)
    (p : String) (mt : MediaType)
    (hk : isKnownAnimeMovie (fileNameOf p) = false)
    (hr : rootCategory cfg (normpath p) = some mt) :
    determineMediaType api cfg p = some mt ∧
    determineMediaType api cfg p = determineMediaType api' cfg p := by
  unfold determineMediaType
  simp [hk, hr]

/-- Witness instance of C3's amended statement. -/
theorem taxonomy_decides_without_catalog_witness :
    determineMediaType offlineApi cfgA srcAvatar =
      some ⟨"movie", false, false, none⟩ ∧
    determineMediaType offlineApi cfgA srcAvatar =
      determineMediaType emptyOkApi cfgA srcAvatar :=
  taxonomy_decides_without_catalog offlineApi emptyOkApi cfgA srcAvatar
    ⟨"movie", false, false, none⟩ (by decide) (by decide)

/-! ### The Avatar scenario (claim C8) -/

/-- CLAIM C8 — evaluation of the pipeline at `Avatar_2009.mp4` under the
movie root with no catalog enrichment: the category is `movie` as claimed,
but the year stays unextracted (the filename-year pattern requires a
trailing separator that an end-of-name year lacks) and the computed
destination is `Movies/Avatar 2009/Avatar 2009.mp4`, not the claimed
`Movies/Avatar (2009)/Avatar (2009).mp4`. -/
theorem avatar_scenario_actual :
    determineMediaType offlineApi cfgA srcAvatar =
      some ⟨"movie", false, false, none⟩ ∧
    (extractFileInfo srcAvatar ⟨"movie", false, false, none⟩).year = none ∧
    (extractFileInfo srcAvatar ⟨"movie", false, false, none⟩).title =
      some "Avatar_2009" ∧
    genOf offlineApi cfgA srcAvatar = dstAvatar ∧
    genOf offlineApi cfgA srcAvatar ≠ "/r/Movies/Avatar (2009)/Avatar (2009).mp4" := by
  refine ⟨by decide, by decide, by decide, by decide, by decide⟩

/-! ### Series destinations (claim C5) -/

/-- A series file with a recognisable episode marker but no season marker
anywhere. -/
def pBB : String := "/r/Series/Breaking Bad/Breaking.Bad.Episode 5.mp4"

/-- The plain series media type. -/
def mtSeries : MediaType := ⟨"series", true, false, none⟩

/-- Counterexample to C5 — for `Breaking.Bad.Episode 5.mp4` under the series
root the episode resolves (to 5) but the season does not; the
`f"s{season_num:02d}…"` format then raises on `None` and the handler returns
the original path, which contains no `sNNeMM` code at all. -/
theorem series_no_season_cex :
    determineMediaType offlineApi cfgA pBB = some mtSeries ∧
    (extractFileInfo pBB mtSeries).episode = some 5 ∧
    (extractFileInfo pBB mtSeries).season = none ∧
    generatePlexPath offlineApi cfgA pBB (extractFileInfo pBB mtSeries) mtSeries = pBB ∧
    hasEpCode pBB = false := by
  refine ⟨by decide, by decide, by decide, by decide, by decide⟩

theorem data_append (a b : String) : (a ++ b).data = a.data ++ b.data := rfl

theorem mem_dropWhile {c : Char} {p : Char → Bool} {l : List Char}
    (h : c ∈ l.dropWhile p) : c ∈ l := by
  induction l with
  | nil => simp [List.dropWhile] at h
  | cons d rest ih =>
    by_cases hd : p d
    · simp only [List.dropWhile, hd] at h
      exact List.mem_cons_of_mem _ (ih h)
    · simpa [List.dropWhile, hd] using h

theorem mem_stripList {c : Char} {l : List Char} (h : c ∈ stripList l) : c ∈ l := by
  unfold stripList at h
  rw [List.mem_reverse] at h
  have h1 := mem_dropWhile h
  rw [List.mem_reverse] at h1
  exact mem_dropWhile h1

theorem mem_collapseWsAux {c : Char} {n : Nat} {l : List Char}
    (hn : l.length ≤ n) (h : c ∈ collapseWsAux n l) :
    c = ' ' ∨ (c ∈ l ∧ isWs c = false) := by
  induction n generalizing l with
  | zero =>
    have : l = [] := List.length_eq_zero.mp (Nat.le_zero.mp hn)
    subst this
    simp [collapseWsAux] at h
  | succ n ih =>
    cases l with
    | nil => simp [collapseWsAux] at h
    | cons d rest =>
      by_cases hd : isWs d
      · rw [show collapseWsAux (n + 1) (d :: rest) =
            ' ' :: collapseWsAux n (rest.dropWhile (fun c => isWs c)) by
          simp [collapseWsAux, hd]] at h
        rcases List.mem_cons.mp h with h1 | h1
        · exact Or.inl h1
        · have hlen : (rest.dropWhile (fun c => isWs c)).length ≤ n := by
            have := length_dropWhile_le (fun c => isWs c) rest
            simp only [List.length_cons] at hn
            omega
          rcases ih hlen h1 with h' | ⟨hm, hw⟩
          · exact Or.inl h'
          · exact Or.inr ⟨List.mem_cons_of_mem _ (mem_dropWhile hm), hw⟩
      · rw [show collapseWsAux (n + 1) (d :: rest) = d :: collapseWsAux n rest by
          simp [collapseWsAux, hd]] at h
        rcases List.mem_cons.mp h with h1 | h1
        · subst h1
          exact Or.inr ⟨List.mem_cons_self _ _, by simpa using hd⟩
        · have hlen : rest.length ≤ n := by
            simp only [List.length_cons] at hn
            omega
          rcases ih hlen h1 with h' | ⟨hm, hw⟩
          · exact Or.inl h'
          · exact Or.inr ⟨List.mem_cons_of_mem _ hm, hw⟩

theorem mem_collapseWs {c : Char} {l : List Char} (h : c ∈ collapseWs l) :
    c = ' ' ∨ (c ∈ l ∧ isWs c = false) :=
  mem_collapseWsAux (Nat.le_refl _) h

/-- Character classification of `cleanTitle` output: alphanumeric (never an
underscore, dash, slash or dot), a single space, or a parenthesis. -/
def cleanChar (c : Char) : Prop :=
  (isWordC c = true ∧ c ≠ '_') ∨ c = ' ' ∨ c = '(' ∨ c = ')'

theorem cleanTitle_chars (s : String) :
    ∀ c ∈ (cleanTitle s).data, cleanChar c := by
  intro c hc
  unfold cleanTitle at hc
  have h1 := mem_stripList hc
  rcases mem_collapseWs h1 with h | ⟨hm, hnw⟩
  · exact Or.inr (Or.inl h)
  · rw [List.mem_map] at hm
    obtain ⟨d, hd, hde⟩ := hm
    rw [List.mem_map] at hd
    obtain ⟨d0, _, hd0e⟩ := hd
    -- d = sepToSpace d0 is never '-' or '_'
    have hdne : d ≠ '_' := by
      subst hd0e
      unfold sepToSpace
      split
      · simp
      · rename_i hcond
        intro he
        exact hcond (Or.inl he)
    subst hde
    unfold nonWordKeepParens
    split
    · rename_i hcond
      rcases hcond with hw | hw | hw | hw
      · exact Or.inl ⟨hw, hdne⟩
      · exfalso
        unfold nonWordKeepParens at hnw
        rw [if_pos (Or.inr (Or.inl hw))] at hnw
        simp [hw] at hnw
      · exact Or.inr (Or.inr (Or.inl hw))
      · exact Or.inr (Or.inr (Or.inr hw))
    · exact Or.inr (Or.inl rfl)

theorem cleanChar_ne_slash {c : Char} (h : cleanChar c) : c ≠ '/' := by
  intro he
  subst he
  rcases h with ⟨hw, _⟩ | h | h | h <;> simp_all [isWordC]

theorem cleanTitle_ne_slash (s : String) : ∀ c ∈ (cleanTitle s).data, c ≠ '/' :=
  fun c hc => cleanChar_ne_slash (cleanTitle_chars s c hc)

theorem slash_not_prefixOf_cons {c : Char} (l : List Char) (hc : c ≠ '/') :
    List.isPrefixOf ['/'] (c :: l) = false := by
  simp [List.isPrefixOf]
  exact fun he => absurd he.symm hc

theorem slash_not_prefixOf_append {l1 l2 : List Char}
    (h1 : ∀ c ∈ l1, c ≠ '/') (h2 : List.isPrefixOf ['/'] l2 = false) :
    List.isPrefixOf ['/'] (l1 ++ l2) = false := by
  cases l1 with
  | nil => simpa using h2
  | cons c rest =>
    exact slash_not_prefixOf_cons _ (h1 c (List.mem_cons_self _ _))

theorem pfx_append_str (a x : String) : strPfx a (a ++ x) := by
  unfold strPfx
  rw [data_append]
  exact List.prefix_append _ _

theorem pjoin_pfx (a b : String) (hb : strStarts "/" b = false) :
    strPfx a (pjoin a b) := by
  unfold pjoin
  rw [hb]
  simp only [Bool.false_eq_true, if_false]
  split
  · exact pfx_append_str a b
  · have : a ++ "/" ++ b = a ++ ("/" ++ b) := by
      apply String.ext
      simp [data_append, List.append_assoc]
    rw [this]
    exact pfx_append_str a _

theorem strPfx_trans {a b c : String} (h1 : strPfx a b) (h2 : strPfx b c) :
    strPfx a c := List.IsPrefix.trans h1 h2

theorem strInf_appendR (x b c : String) (h : strInf x b) : strInf x (b ++ c) := by
  obtain ⟨s, t, he⟩ := h
  exact ⟨s, t ++ c.data, by rw [data_append, ← he]; simp [List.append_assoc]⟩

theorem strInf_appendL (x a b : String) (h : strInf x b) : strInf x (a ++ b) := by
  obtain ⟨s, t, he⟩ := h
  exact ⟨a.data ++ s, t, by rw [data_append, ← he]; simp [List.append_assoc]⟩

theorem strInf_pjoin (x a b : String) (h : strInf x b) : strInf x (pjoin a b) := by
  unfold pjoin
  split
  · exact h
  · split
    · exact strInf_appendL x a b h
    · have : a ++ "/" ++ b = (a ++ "/") ++ b := rfl
      rw [this]
      exact strInf_appendL x (a ++ "/") b h

/-- The series destination chain: the destination folder is a path prefix of
the generated path, and the episode code occurs in its filename. -/
theorem series_chain (d tt yTag sN ep a b c : String)
    (htt : ∀ ch ∈ tt.data, ch ≠ '/') :
    strPfx d (pjoin (pjoin (pjoin d tt ++ yTag) ("Season " ++ sN))
      (tt ++ " - " ++ ep ++ a ++ b ++ c)) ∧
    strInf ep (pjoin (pjoin (pjoin d tt ++ yTag) ("Season " ++ sN))
      (tt ++ " - " ++ ep ++ a ++ b ++ c)) := by
  constructor
  · have h1 : strPfx d (pjoin d tt) := by
      apply pjoin_pfx
      unfold strStarts
      cases htc : tt.data with
      | nil => rfl
      | cons c0 r =>
        exact slash_not_prefixOf_cons _ (htt c0 (by rw [htc]; exact List.mem_cons_self _ _))
    have h2 : strPfx (pjoin d tt) (pjoin d tt ++ yTag) := pfx_append_str _ _
    have h3 : strPfx (pjoin d tt ++ yTag)
        (pjoin (pjoin d tt ++ yTag) ("Season " ++ sN)) := by
      apply pjoin_pfx
      unfold strStarts
      exact slash_not_prefixOf_cons _ (by decide)
    have h4 : strPfx (pjoin (pjoin d tt ++ yTag) ("Season " ++ sN))
        (pjoin (pjoin (pjoin d tt ++ yTag) ("Season " ++ sN))
          (tt ++ " - " ++ ep ++ a ++ b ++ c)) := by
      apply pjoin_pfx
      unfold strStarts
      have hdata : (tt ++ " - " ++ ep ++ a ++ b ++ c).data
          = tt.data ++ (" - ".data ++ (ep.data ++ (a.data ++ (b.data ++ c.data)))) := by
        simp [data_append, List.append_assoc]
      rw [hdata]
      exact slash_not_prefixOf_append htt (by rfl)
    exact strPfx_trans h1 (strPfx_trans h2 (strPfx_trans h3 h4))
  · apply strInf_pjoin
    have : strInf ep ((tt ++ " - ") ++ ep) := by
      refine ⟨(tt ++ " - ").data, [], ?_⟩
      rw [data_append]
      simp
    have h5 : tt ++ " - " ++ ep = (tt ++ " - ") ++ ep := rfl
    rw [h5]
    exact strInf_appendR _ _ _ (strInf_appendR _ _ _ (strInf_appendR _ _ _ this))

set_option maxHeartbeats 1000000 in
/-- CLAIM C5 (amended) — for every series-category record whose episode AND
season are both resolved (season defaults to 1 for anime series during
extraction, but a plain series without a season marker keeps `None` and the
path builder then returns the original path), the generated path lies under
the destination folder selected for the category and contains the
zero-padded `sNNeMM` episode code. -/
theorem series_build_shape (api : TmdbApi) (cfg : Config) (orig : String)
    (info : FileInfo) (mt : MediaType) (s e : Nat) (t : String)
    (hser : mt.isSeries = true)
    (hty : mt.type = "series" ∨ mt.type = "anime_series")
    (ht : info.title = some t)
    (hs : info.season = some s)
    (he : info.episode = some e) (hez : e ≠ 0) :
    ∃ d, destFolderFor api cfg mt = some d ∧
      strPfx d (generatePlexPath api cfg orig info mt) ∧
      strInf ("s" ++ pad2 s ++ "e" ++ pad2 e)
        (generatePlexPath api cfg orig info mt) := by
  have hd : ∃ d, destFolderFor api cfg mt = some d := by
    unfold destFolderFor
    repeat' split
    all_goals
      first
        | exact ⟨_, rfl⟩
        | (rcases hty with h | h <;> simp_all)
  obtain ⟨d, hd⟩ := hd
  refine ⟨d, hd, ?_⟩
  unfold generatePlexPath
  rw [hd, ht, hser, he, hs]
  dsimp only
  rw [if_neg hez]
  exact series_chain d _ _ _ _ _ _ _ (cleanTitle_ne_slash _)

/-- Witness instance of C5's amended statement. -/
theorem series_build_shape_witness :
    ∃ d, destFolderFor offlineApi cfgA mtSeries = some d ∧
      strPfx d (generatePlexPath offlineApi cfgA "/dl/x.mp4"
        { title := some "Breaking Bad", season := some 1, episode := some 1 } mtSeries) ∧
      strInf ("s" ++ pad2 1 ++ "e" ++ pad2 1)
        (generatePlexPath offlineApi cfgA "/dl/x.mp4"
          { title := some "Breaking Bad", season := some 1, episode := some 1 } mtSeries) :=
  series_build_shape offlineApi cfgA "/dl/x.mp4"
    { title := some "Breaking Bad", season := some 1, episode := some 1 }
    mtSeries 1 1 "Breaking Bad" rfl (Or.inl rfl) rfl rfl rfl (by decide)

/-! ### Catalog-id preservation (claim C1) -/

/-- Configuration with TMDB ids enabled. -/
def cfgT : Config := ⟨"Movies", "Series", "Anime", "Anime/Film", "/r", false, true⟩

/-- An oracle under which the classification query (built from the lowered
basename) finds movie id 42, while the enrichment query (built from the
extracted title, which keeps its capitalisation) finds movie id 7. -/
def apiC1 : TmdbApi := { offlineApi with
  searchMovie := fun q =>
    if q = "inception" then .ok [⟨42, "Inception", some "2010-07-15", 10⟩]
    else if q = "Inception" then .ok [⟨7, "Inception", some "2010-07-15", 10⟩]
    else .ok []
  searchTv := fun _ => .ok []
  movieDetailRaw := fun i => if i = 42 then .ok ⟨["US"], []⟩ else .error ()
  movieKeywords := fun i => if i = 42 then .ok [] else .error ()
  getMovieDetails := fun i =>
    if i = 7 then .ok (some ⟨"Inception", some "2010-07-15", none, none⟩)
    else .error () }

/-- Counterexample to C1 — for `/dl/Inception.mp4` the classification phase
binds tmdb id 42, but the enrichment phase of `process_downloaded_file`
(`search_and_enrich_with_tmdb`) performs a fresh search regardless and
overwrites the record's id with the fresh search's top hit, 7. -/
theorem enrichment_overwrites_bound_id_cex :
    (processPipeline apiC1 cfgT "/dl/Inception.mp4").map
      (fun r => (r.1.tmdbId, r.2.1.tmdbId)) = some (some 42, some 7) ∧
    (42 : Nat) ≠ 7 := by
  refine ⟨by decide, by decide⟩

theorem searchAndEnrich_false_id (api : TmdbApi) (i : FileInfo) (mt : MediaType)
    (h : (searchAndEnrichWithTmdb api i mt).1 = false) :
    (searchAndEnrichWithTmdb api i mt).2 = i := by
  revert h
  unfold searchAndEnrichWithTmdb
  dsimp only
  repeat' split
  all_goals intro h
  all_goals first | rfl | simp at h

/-- CLAIM C1 (amended) — the classification-bound tmdb id survives the
enrichment phase of `process_downloaded_file` exactly when the primary fresh
search (`search_and_enrich_with_tmdb`) fails; the fallback
`_enrich_with_tmdb_metadata` then reasserts the bound id without searching.
(When the fresh search succeeds, the id is overwritten with the search's top
hit, as the counterexample shows.) -/
theorem enrich_preserves_bound_id_on_search_failure (api : TmdbApi)
    (cfg : Config) (info : FileInfo) (mt : MediaType) (k : Nat)
    (hu : cfg.useTmdbIds = true) (hk : mt.tmdbId = some k)
    (hf : (searchAndEnrichWithTmdb api (transferTmdbId cfg info mt) mt).1 = false) :
    (enrichPhase api cfg (transferTmdbId cfg info mt) mt).tmdbId = some k := by
  have hi : (transferTmdbId cfg info mt).tmdbId = some k := by
    unfold transferTmdbId
    rw [if_pos ⟨by simp [hk], hu⟩]
    simp [hk]
  unfold enrichPhase
  rw [hu]
  simp only [if_true]
  rcases hse : searchAndEnrichWithTmdb api (transferTmdbId cfg info mt) mt with ⟨b, i2⟩
  have hb : b = false := by rw [hse] at hf; exact hf
  subst hb
  have hi2 : i2 = transferTmdbId cfg info mt := by
    have h2 := searchAndEnrich_false_id api (transferTmdbId cfg info mt) mt hf
    rw [hse] at h2
    exact h2
  subst hi2
  dsimp only
  unfold enrichWithTmdbMetadata
  rw [if_pos ⟨by simp [hk], hu⟩]
  dsimp only
  split
  · split
    · simp [hk]
    · simp [hk]
  · simp [hk]

/-- Witness instance of C1's amended statement with a failing search. -/
theorem enrich_preserves_bound_id_on_search_failure_witness :
    (enrichPhase offlineApi cfgT
      (transferTmdbId cfgT {} ⟨"movie", false, false, some 5⟩)
      ⟨"movie", false, false, some 5⟩).tmdbId = some 5 :=
  enrich_preserves_bound_id_on_search_failure offlineApi cfgT {}
    ⟨"movie", false, false, some 5⟩ 5 rfl rfl (by decide)


/-! ### Toolkit for the movie-path idempotence analysis (claim C9) -/

theorem takeWhile_all (p : Char → Bool) (l : List Char)
    (h : ∀ c ∈ l, p c = true) : l.takeWhile p = l := by
  induction l with
  | nil => rfl
  | cons c rest ih =>
    rw [List.takeWhile_cons, h c (List.mem_cons_self _ _)]
    simp [ih (fun d hd => h d (List.mem_cons_of_mem _ hd))]

theorem takeWhile_app (p : Char → Bool) (a : List Char) (x : Char) (b : List Char)
    (ha : ∀ c ∈ a, p c = true) (hx : p x = false) :
    (a ++ x :: b).takeWhile p = a := by
  induction a with
  | nil => simp [List.takeWhile_cons, hx]
  | cons c rest ih =>
    rw [List.cons_append, List.takeWhile_cons, ha c (List.mem_cons_self _ _)]
    simp [ih (fun d hd => ha d (List.mem_cons_of_mem _ hd))]

theorem dropWhile_app (p : Char → Bool) (a : List Char) (x : Char) (b : List Char)
    (ha : ∀ c ∈ a, p c = true) (hx : p x = false) :
    (a ++ x :: b).dropWhile p = x :: b := by
  induction a with
  | nil => simp [List.dropWhile_cons, hx]
  | cons c rest ih =>
    rw [List.cons_append, List.dropWhile_cons]
    simp [ha c (List.mem_cons_self _ _),
      ih (fun d hd => ha d (List.mem_cons_of_mem _ hd))]

theorem dropWhile_head (p : Char → Bool) (l : List Char) (c : Char)
    (rest : List Char) (h : l.dropWhile p = c :: rest) : p c = false := by
  induction l with
  | nil => simp [List.dropWhile] at h
  | cons d l' ih =>
    rw [List.dropWhile_cons] at h
    by_cases hd : p d = true
    · rw [if_pos hd] at h
      exact ih h
    · rw [if_neg hd] at h
      injection h with h1 _
      subst h1
      simpa using hd

theorem dropWhile_nil_all (p : Char → Bool) (l : List Char)
    (h : l.dropWhile p = []) : ∀ c ∈ l, p c = true := by
  induction l with
  | nil => intro c hc; simp at hc
  | cons d l' ih =>
    rw [List.dropWhile_cons] at h
    by_cases hd : p d = true
    · rw [if_pos hd] at h
      intro c hc
      rcases List.mem_cons.mp hc with h1 | h1
      · subst h1; exact hd
      · exact ih h c h1
    · rw [if_neg hd] at h
      cases h

theorem mem_takeWhile (p : Char → Bool) (l : List Char) (c : Char)
    (h : c ∈ l.takeWhile p) : p c = true := by
  induction l with
  | nil => simp [List.takeWhile] at h
  | cons d l' ih =>
    rw [List.takeWhile_cons] at h
    by_cases hd : p d = true
    · rw [if_pos hd] at h
      rcases List.mem_cons.mp h with h1 | h1
      · subst h1; exact hd
      · exact ih h1
    · rw [if_neg hd] at h
      cases h

theorem drop_len_takeWhile (p : Char → Bool) (l : List Char) :
    l.drop (l.takeWhile p).length = l.dropWhile p := by
  induction l with
  | nil => rfl
  | cons d l' ih =>
    rw [List.takeWhile_cons, List.dropWhile_cons]
    by_cases hd : p d = true
    · rw [if_pos hd, if_pos hd, List.length_cons, List.drop_succ_cons]
      exact ih
    · rw [if_neg hd, if_neg hd, List.length_nil, List.drop_zero]

theorem digit_ne_lparen {c : Char} (h : isDigitC c = true) : c ≠ '(' :=
  fun he => by rw [he] at h; exact absurd h (by decide)

theorem digit_ne_rparen {c : Char} (h : isDigitC c = true) : c ≠ ')' :=
  fun he => by rw [he] at h; exact absurd h (by decide)

theorem digit_ne_dot {c : Char} (h : isDigitC c = true) : c ≠ '.' :=
  fun he => by rw [he] at h; exact absurd h (by decide)

theorem digit_ne_fslash {c : Char} (h : isDigitC c = true) : c ≠ '/' :=
  fun he => by rw [he] at h; exact absurd h (by decide)

theorem digit_not_ws {c : Char} (h : isDigitC c = true) : isWs c = false := by
  by_contra hw
  rw [Bool.not_eq_false] at hw
  simp only [isWs, decide_eq_true_eq] at hw
  rcases hw with h1 | h1 | h1 | h1 | h1 | h1 <;>
    (subst h1; exact absurd h (by decide))

/-- Python lowercasing cannot produce a dash or underscore from any other
character: the shifted range `[97,122]` misses both separator codes. -/
theorem toLower_sep {c : Char} (h : c.toLower = '-' ∨ c.toLower = '_') :
    c = '-' ∨ c = '_' := by
  unfold Char.toLower at h
  dsimp only at h
  split at h
  · rename_i hg
    obtain ⟨h1, h2⟩ := hg
    exfalso
    generalize hgen : c.toNat = n at h1 h2 h
    interval_cases n <;> revert h <;> decide
  · exact h

theorem searchAux_app {α : Type} (tryAt : List Char → Option α) (a b : List Char)
    (h : ∀ s, s <:+ a → s ≠ [] → tryAt (s ++ b) = none) :
    searchAux tryAt (a ++ b) = searchAux tryAt b := by
  induction a with
  | nil => rfl
  | cons c a' ih =>
    have hc := h (c :: a') (List.suffix_refl _) (by simp)
    rw [List.cons_append] at hc
    rw [List.cons_append]
    simp only [searchAux, hc]
    exact ih (fun s hs hne => h s (hs.trans (List.suffix_cons c a')) hne)

theorem findFrom_app {α : Type} (tryAt : List Char → Option (Nat × α))
    (a b : List Char) (h : ∀ s, s <:+ a → s ≠ [] → tryAt (s ++ b) = none)
    (i : Nat) : findFrom tryAt (a ++ b) i = findFrom tryAt b (i + a.length) := by
  induction a generalizing i with
  | nil => rw [List.nil_append, List.length_nil, Nat.add_zero]
  | cons c a' ih =>
    have hc := h (c :: a') (List.suffix_refl _) (by simp)
    rw [List.cons_append] at hc
    rw [List.cons_append]
    simp only [findFrom, hc]
    rw [ih (fun s hs hne => h s (hs.trans (List.suffix_cons c a')) hne) (i + 1),
      List.length_cons]
    congr 1
    omega

theorem findFrom_none {α : Type} (tryAt : List Char → Option (Nat × α))
    (l : List Char) (h : ∀ s, s <:+ l → s ≠ [] → tryAt s = none) (i : Nat) :
    findFrom tryAt l i = none := by
  induction l generalizing i with
  | nil => rfl
  | cons c l' ih =>
    have hc := h (c :: l') (List.suffix_refl _) (by simp)
    simp only [findFrom, hc]
    exact ih (fun s hs hne => h s (hs.trans (List.suffix_cons c l')) hne) (i + 1)

theorem subAllAux_nil (fm : List Char → Option (Nat × Nat)) (r : List Char)
    (hfm : fm [] = none) (n : Nat) : subAllAux fm r n [] = [] := by
  cases n with
  | zero => rfl
  | succ m => simp only [subAllAux, hfm]

theorem subAll_id (fm : List Char → Option (Nat × Nat)) (s : List Char)
    (h : fm s = none) : subAll fm [] s = s := by
  unfold subAll
  cases hl : s.length with
  | zero => rfl
  | succ n => simp only [subAllAux, h]

theorem subAll_once (fm : List Char → Option (Nat × Nat)) (s : List Char)
    (i len : Nat) (hfm : fm s = some (i, len))
    (hdrop : s.drop (i + max len 1) = []) (hnil : fm [] = none) :
    subAll fm [] s = s.take i := by
  cases s with
  | nil => rw [hnil] at hfm; cases hfm
  | cons c s' =>
    show subAllAux fm [] (c :: s').length (c :: s') = _
    rw [List.length_cons]
    simp only [subAllAux, hfm, hdrop, subAllAux_nil fm [] hnil]
    simp

theorem tryParenYearAt_ne (c : Char) (l : List Char) (hc : c ≠ '(') :
    tryParenYearAt (c :: l) = none := by
  unfold tryParenYearAt
  split
  · rename_i heq
    injection heq with h1 _
    exact absurd h1 hc
  · rfl

theorem tryLanguageAt_ne (c : Char) (l : List Char) (hc1 : c ≠ '-')
    (hc2 : c ≠ '_') : tryLanguageAt (c :: l) = none := by
  simp only [tryLanguageAt]
  rw [if_neg]
  rintro (h | h)
  · exact hc1 h
  · exact hc2 h

theorem tryYearParenAt_ne (l : List Char) (c : Char) (rest : List Char)
    (hdw : l.dropWhile (fun x => isWs x) = c :: rest) (hc : c ≠ '(') :
    tryYearParenAt l = none := by
  unfold tryYearParenAt
  dsimp only
  rw [drop_len_takeWhile, hdw]
  split
  · rename_i heq
    injection heq with h1 _
    exact absurd h1 hc
  · rfl

theorem tryAnyParenAt_ne (l : List Char) (c : Char) (rest : List Char)
    (hdw : l.dropWhile (fun x => isWs x) = c :: rest) (hc : c ≠ '(') :
    tryAnyParenAt l = none := by
  unfold tryAnyParenAt
  dsimp only
  rw [drop_len_takeWhile, hdw]
  split
  · rename_i heq
    injection heq with h1 _
    exact absurd h1 hc
  · rfl

theorem head_stripList (l : List Char) (c : Char) (rest : List Char)
    (h : stripList l = c :: rest) : isWs c = false := by
  unfold stripList at h
  obtain ⟨pre, hpre⟩ : ((l.dropWhile (fun c => isWs c)).reverse.dropWhile
      (fun c => isWs c)) <:+ (l.dropWhile (fun c => isWs c)).reverse :=
    List.dropWhile_suffix _
  have h2 := congrArg List.reverse hpre
  rw [List.reverse_append, h, List.reverse_reverse] at h2
  exact dropWhile_head _ l c (rest ++ pre.reverse)
    (by rw [← h2, List.cons_append])

theorem getLast_stripList (l : List Char) (l' : List Char) (c : Char)
    (h : stripList l = l' ++ [c]) : isWs c = false := by
  unfold stripList at h
  have hR := congrArg List.reverse h
  rw [List.reverse_reverse, List.reverse_append, List.reverse_singleton,
    List.singleton_append] at hR
  exact dropWhile_head _ _ _ _ hR

theorem stripList_self (c₁ : Char) (m : List Char) (c₂ : Char)
    (h1 : isWs c₁ = false) (h2 : isWs c₂ = false) :
    stripList (c₁ :: (m ++ [c₂])) = c₁ :: (m ++ [c₂]) := by
  unfold stripList
  rw [List.dropWhile_cons, if_neg (by simp [h1])]
  rw [List.reverse_cons, List.reverse_append, List.reverse_singleton,
    List.singleton_append]
  rw [List.cons_append, List.dropWhile_cons, if_neg (by simp [h2])]
  rw [List.reverse_cons, List.reverse_append, List.reverse_singleton,
    List.reverse_reverse, List.singleton_append, List.cons_append]

theorem stripList_single (c : Char) (h : isWs c = false) :
    stripList [c] = [c] := by
  unfold stripList
  rw [List.dropWhile_cons, if_neg (by simp [h])]
  simp [List.dropWhile_cons, h]

theorem str_data_ne (t : String) (h : t ≠ "") : t.data ≠ [] :=
  fun he => h (String.ext he)

theorem cleanChar_ne_dot {c : Char} (h : cleanChar c) : c ≠ '.' := by
  intro he
  subst he
  rcases h with ⟨hw, _⟩ | h | h | h <;> simp_all [isWordC]

theorem cleanChar_ne_dash {c : Char} (h : cleanChar c) : c ≠ '-' := by
  intro he
  subst he
  rcases h with ⟨hw, _⟩ | h | h | h <;> simp_all [isWordC]

theorem cleanChar_ne_low {c : Char} (h : cleanChar c) : c ≠ '_' := by
  intro he
  subst he
  rcases h with ⟨_, hne⟩ | h | h | h
  · exact hne rfl
  all_goals simp_all

theorem digit_ne_dash {c : Char} (h : isDigitC c = true) : c ≠ '-' :=
  fun he => by rw [he] at h; exact absurd h (by decide)

theorem digit_ne_low {c : Char} (h : isDigitC c = true) : c ≠ '_' :=
  fun he => by rw [he] at h; exact absurd h (by decide)

theorem searchAux_none {α : Type} (tryAt : List Char → Option α) (l : List Char)
    (h : ∀ c rest, (c :: rest) <:+ l → tryAt (c :: rest) = none) :
    searchAux tryAt l = none := by
  induction l with
  | nil => rfl
  | cons c l' ih =>
    have hc := h c l' (List.suffix_refl _)
    simp only [searchAux, hc]
    exact ih (fun d rest hs => h d rest (hs.trans (List.suffix_cons c l')))

/-- Decompose a nonempty suffix of a stripped string: its leading whitespace
run is proper, exposing a first non-whitespace character of the string. -/
theorem suffix_break (t : String) (L : List Char)
    (hstr : stripList L = t.data) (s : List Char) (hs : s <:+ t.data)
    (hne : s ≠ []) :
    ∃ c s2, s.dropWhile (fun x => isWs x) = c :: s2 ∧ isWs c = false ∧
      c ∈ t.data := by
  rcases List.eq_nil_or_concat s with h0 | ⟨s0, clast, hconc⟩
  · exact absurd h0 hne
  rw [List.concat_eq_append] at hconc
  obtain ⟨pre, hpre⟩ := hs
  have hlast : isWs clast = false := by
    apply getLast_stripList L (pre ++ s0) clast
    rw [hstr, ← hpre, hconc, List.append_assoc]
  have hdwne : s.dropWhile (fun x => isWs x) ≠ [] := by
    intro hnil
    have hin : clast ∈ s := by
      rw [hconc]
      exact List.mem_append_right _ (List.mem_singleton_self _)
    have := dropWhile_nil_all _ _ hnil clast hin
    rw [this] at hlast
    cases hlast
  cases hd : s.dropWhile (fun x => isWs x) with
  | nil => exact absurd hd hdwne
  | cons c s2 =>
    refine ⟨c, s2, rfl, dropWhile_head _ _ _ _ hd, ?_⟩
    have hcs : c ∈ s := mem_dropWhile (p := fun x => isWs x)
      (by rw [hd]; exact List.mem_cons_self _ _)
    rw [← hpre]
    exact List.mem_append_right pre hcs

theorem tryYearParenAt_app_ne (t : String) (L : List Char)
    (hstr : stripList L = t.data) (htp : ∀ c ∈ t.data, c ≠ '(')
    (s b : List Char) (hs : s <:+ t.data) (hne : s ≠ []) :
    tryYearParenAt (s ++ b) = none := by
  obtain ⟨c, s2, hd, hws, hmem⟩ := suffix_break t L hstr s hs hne
  have hdec : s ++ b = s.takeWhile (fun x => isWs x) ++ c :: (s2 ++ b) := by
    conv_lhs => rw [← List.takeWhile_append_dropWhile
      (p := fun x => isWs x) (l := s), hd]
    rw [List.append_assoc, List.cons_append]
  have hdw2 : (s ++ b).dropWhile (fun x => isWs x) = c :: (s2 ++ b) := by
    rw [hdec]
    exact dropWhile_app _ _ c _ (fun d hdm => mem_takeWhile _ _ _ hdm) hws
  exact tryYearParenAt_ne (s ++ b) c (s2 ++ b) hdw2 (htp c hmem)

theorem tryAnyParenAt_app_ne (t : String) (L : List Char)
    (hstr : stripList L = t.data) (htp : ∀ c ∈ t.data, c ≠ '(')
    (s b : List Char) (hs : s <:+ t.data) (hne : s ≠ []) :
    tryAnyParenAt (s ++ b) = none := by
  obtain ⟨c, s2, hd, hws, hmem⟩ := suffix_break t L hstr s hs hne
  have hdec : s ++ b = s.takeWhile (fun x => isWs x) ++ c :: (s2 ++ b) := by
    conv_lhs => rw [← List.takeWhile_append_dropWhile
      (p := fun x => isWs x) (l := s), hd]
    rw [List.append_assoc, List.cons_append]
  have hdw2 : (s ++ b).dropWhile (fun x => isWs x) = c :: (s2 ++ b) := by
    rw [hdec]
    exact dropWhile_app _ _ c _ (fun d hdm => mem_takeWhile _ _ _ hdm) hws
  exact tryAnyParenAt_ne (s ++ b) c (s2 ++ b) hdw2 (htp c hmem)

theorem tryParenYearAt_app_ne (t : String) (htp : ∀ c ∈ t.data, c ≠ '(')
    (s b : List Char) (hs : s <:+ t.data ++ [' ']) (hne : s ≠ []) :
    tryParenYearAt (s ++ b) = none := by
  cases s with
  | nil => exact absurd rfl hne
  | cons c s' =>
    rw [List.cons_append]
    apply tryParenYearAt_ne
    have hc : c ∈ t.data ++ [' '] := hs.subset (List.mem_cons_self _ _)
    rcases List.mem_append.mp hc with h1 | h1
    · exact htp c h1
    · rw [List.mem_singleton] at h1
      subst h1
      decide

theorem mem_movieName (t y : String) (c : Char)
    (h : c ∈ t.data ++ ' ' :: '(' :: (y.data ++ [')'])) :
    c ∈ t.data ∨ c = ' ' ∨ c = '(' ∨ c ∈ y.data ∨ c = ')' := by
  rcases List.mem_append.mp h with h1 | h1
  · exact Or.inl h1
  rcases List.mem_cons.mp h1 with h2 | h2
  · exact Or.inr (Or.inl h2)
  rcases List.mem_cons.mp h2 with h3 | h3
  · exact Or.inr (Or.inr (Or.inl h3))
  rcases List.mem_append.mp h3 with h4 | h4
  · exact Or.inr (Or.inr (Or.inr (Or.inl h4)))
  · rw [List.mem_singleton] at h4
    exact Or.inr (Or.inr (Or.inr (Or.inr h4)))

theorem findParenYear_movieName (t y : String) (htp : ∀ c ∈ t.data, c ≠ '(')
    (hy4 : y.data.length = 4) (hyd : ∀ c ∈ y.data, isDigitC c = true) :
    findParenYear ⟨t.data ++ ' ' :: '(' :: (y.data ++ [')'])⟩ = some y := by
  unfold findParenYear
  show searchAux tryParenYearAt (t.data ++ ' ' :: '(' :: (y.data ++ [')'])) =
    some y
  have hsplit2 : t.data ++ ' ' :: '(' :: (y.data ++ [')']) =
      (t.data ++ [' ']) ++ ('(' :: (y.data ++ [')'])) := by
    rw [List.append_assoc, List.singleton_append]
  rw [hsplit2, searchAux_app _ _ _
    (fun s hsuf hne => tryParenYearAt_app_ne t htp s _ hsuf hne)]
  have hhead : tryParenYearAt ('(' :: (y.data ++ [')'])) = some y := by
    simp only [tryParenYearAt]
    rw [show (y.data ++ [')']).take 4 = y.data from by
      rw [← hy4]; exact List.take_left _ _]
    rw [if_pos ⟨hy4, by rw [List.all_eq_true]; exact hyd⟩]
    rw [show (y.data ++ [')']).drop 4 = [')'] from by
      rw [← hy4]; exact List.drop_left _ _]
    rfl
  simp only [searchAux, hhead]

theorem findLanguage_movieName (t y : String)
    (hc : ∀ c ∈ t.data, cleanChar c)
    (hyd : ∀ c ∈ y.data, isDigitC c = true) :
    findLanguage ⟨t.data ++ ' ' :: '(' :: (y.data ++ [')'])⟩ = none := by
  unfold findLanguage
  show searchAux tryLanguageAt
    ((t.data ++ ' ' :: '(' :: (y.data ++ [')'])).map Char.toLower) = none
  apply searchAux_none
  intro c rest hsuf
  have hcm : c ∈ (t.data ++ ' ' :: '(' :: (y.data ++ [')'])).map Char.toLower :=
    hsuf.subset (List.mem_cons_self _ _)
  rw [List.mem_map] at hcm
  obtain ⟨c0, hc0, hle⟩ := hcm
  have hnotsep : c ≠ '-' ∧ c ≠ '_' := by
    constructor <;> intro he <;> rw [← hle] at he
    · rcases toLower_sep (Or.inl he) with h1 | h1 <;> subst h1 <;>
        rcases mem_movieName t y _ hc0 with hm | hm | hm | hm | hm
      · exact cleanChar_ne_dash (hc _ hm) rfl
      · cases hm
      · cases hm
      · exact digit_ne_dash (hyd _ hm) rfl
      · cases hm
      · exact cleanChar_ne_low (hc _ hm) rfl
      · cases hm
      · cases hm
      · exact digit_ne_low (hyd _ hm) rfl
      · cases hm
    · rcases toLower_sep (Or.inr he) with h1 | h1 <;> subst h1 <;>
        rcases mem_movieName t y _ hc0 with hm | hm | hm | hm | hm
      · exact cleanChar_ne_dash (hc _ hm) rfl
      · cases hm
      · cases hm
      · exact digit_ne_dash (hyd _ hm) rfl
      · cases hm
      · exact cleanChar_ne_low (hc _ hm) rfl
      · cases hm
      · cases hm
      · exact digit_ne_low (hyd _ hm) rfl
      · cases hm
  exact tryLanguageAt_ne c rest hnotsep.1 hnotsep.2

theorem list_len4 {l : List Char} (h : l.length = 4) :
    ∃ a b c d, l = [a, b, c, d] := by
  cases l with
  | nil => simp at h
  | cons a l1 =>
    cases l1 with
    | nil => simp at h
    | cons b l2 =>
      cases l2 with
      | nil => simp at h
      | cons c l3 =>
        cases l3 with
        | nil => simp at h
        | cons d l4 =>
          cases l4 with
          | nil => exact ⟨a, b, c, d, rfl⟩
          | cons e l5 => simp at h

theorem suffix7 {d1 d2 d3 d4 : Char} {s : List Char}
    (hs : s <:+ ' ' :: '(' :: d1 :: d2 :: d3 :: d4 :: [')']) (hne : s ≠ []) :
    s = ' ' :: '(' :: d1 :: d2 :: d3 :: d4 :: [')'] ∨
    s = '(' :: d1 :: d2 :: d3 :: d4 :: [')'] ∨
    s = d1 :: d2 :: d3 :: d4 :: [')'] ∨
    s = d2 :: d3 :: d4 :: [')'] ∨
    s = d3 :: d4 :: [')'] ∨
    s = d4 :: [')'] ∨ s = [')'] := by
  rw [List.suffix_cons_iff] at hs
  rcases hs with h | hs
  · exact Or.inl h
  rw [List.suffix_cons_iff] at hs
  rcases hs with h | hs
  · exact Or.inr (Or.inl h)
  rw [List.suffix_cons_iff] at hs
  rcases hs with h | hs
  · exact Or.inr (Or.inr (Or.inl h))
  rw [List.suffix_cons_iff] at hs
  rcases hs with h | hs
  · exact Or.inr (Or.inr (Or.inr (Or.inl h)))
  rw [List.suffix_cons_iff] at hs
  rcases hs with h | hs
  · exact Or.inr (Or.inr (Or.inr (Or.inr (Or.inl h))))
  rw [List.suffix_cons_iff] at hs
  rcases hs with h | hs
  · exact Or.inr (Or.inr (Or.inr (Or.inr (Or.inr (Or.inl h)))))
  rw [List.suffix_cons_iff] at hs
  rcases hs with h | hs
  · exact Or.inr (Or.inr (Or.inr (Or.inr (Or.inr (Or.inr h)))))
  rw [List.suffix_nil] at hs
  exact absurd hs hne

theorem dropWhile_ws_digit {d : Char} (h : isDigitC d = true) (l : List Char) :
    (d :: l).dropWhile (fun x => isWs x) = d :: l := by
  rw [List.dropWhile_cons, if_neg]
  simp [digit_not_ws h]

theorem dropWhile_ws_rparen (l : List Char) :
    (')' :: l).dropWhile (fun x => isWs x) = ')' :: l := by
  rw [List.dropWhile_cons, if_neg]
  decide

theorem tryYearParenAt_b (d1 d2 d3 d4 : Char) :
    tryYearParenAt (' ' :: '(' :: d1 :: d2 :: d3 :: d4 :: [')']) =
      if (d1 = '1' ∨ d1 = '2') ∧ isDigitC d2 ∧ isDigitC d3 ∧ isDigitC d4
      then some 7 else none := rfl

theorem tryYearParenAt_p (d1 d2 d3 d4 : Char) :
    tryYearParenAt ('(' :: d1 :: d2 :: d3 :: d4 :: [')']) =
      if (d1 = '1' ∨ d1 = '2') ∧ isDigitC d2 ∧ isDigitC d3 ∧ isDigitC d4
      then some 6 else none := rfl

theorem tryAnyParenAt_b (d1 d2 d3 d4 : Char) (h1 : d1 ≠ ')') (h2 : d2 ≠ ')')
    (h3 : d3 ≠ ')') (h4 : d4 ≠ ')') :
    tryAnyParenAt (' ' :: '(' :: d1 :: d2 :: d3 :: d4 :: [')']) = some 7 := by
  have hin : (d1 :: d2 :: d3 :: d4 :: [')']).takeWhile
      (fun c => decide (c ≠ ')')) = [d1, d2, d3, d4] := by
    show ([d1, d2, d3, d4] ++ ')' :: []).takeWhile (fun c => decide (c ≠ ')')) =
      [d1, d2, d3, d4]
    apply takeWhile_app
    · intro c hc
      simp only [List.mem_cons, List.not_mem_nil, or_false] at hc
      rcases hc with rfl | rfl | rfl | rfl
      · simp [h1]
      · simp [h2]
      · simp [h3]
      · simp [h4]
    · simp
  have hred : tryAnyParenAt (' ' :: '(' :: d1 :: d2 :: d3 :: d4 :: [')']) =
      (fun inner : List Char =>
        if inner = [] then none
        else
          match (d1 :: d2 :: d3 :: d4 :: [')']).drop inner.length with
          | ')' :: _ => some (1 + 1 + inner.length + 1)
          | _ => none)
      ((d1 :: d2 :: d3 :: d4 :: [')']).takeWhile (fun c => decide (c ≠ ')'))) :=
    rfl
  rw [hred, hin]
  dsimp only
  rw [if_neg (by simp : ¬([d1, d2, d3, d4] : List Char) = [])]
  rfl

/-- The extracted title of the canonical movie file: the
`\s*\([12][0-9]{3}\)` and `\s*\([^)]+\)` removals strip exactly the year
tag, and the final strip leaves the original (already stripped) title. -/
theorem title_clean_movieName (t y : String) (L : List Char)
    (hstr : stripList L = t.data)
    (htp : ∀ c ∈ t.data, c ≠ '(')
    (hy4 : y.data.length = 4) (hyd : ∀ c ∈ y.data, isDigitC c = true)
    (hself : stripList t.data = t.data) :
    stripList (subAnyParen (subYearParen
      (t.data ++ ' ' :: '(' :: (y.data ++ [')'])))) = t.data := by
  obtain ⟨d1, d2, d3, d4, hy⟩ := list_len4 hy4
  rw [hy] at hyd
  rw [hy]
  have hD1 : isDigitC d1 = true := hyd d1 (by simp)
  have hD2 : isDigitC d2 = true := hyd d2 (by simp)
  have hD3 : isDigitC d3 = true := hyd d3 (by simp)
  have hD4 : isDigitC d4 = true := hyd d4 (by simp)
  show stripList (subAnyParen (subYearParen
    (t.data ++ ' ' :: '(' :: d1 :: d2 :: d3 :: d4 :: [')']))) = t.data
  have hfmY : fmOfLen tryYearParenAt
      (t.data ++ ' ' :: '(' :: d1 :: d2 :: d3 :: d4 :: [')']) =
      (findFrom (fun l => (tryYearParenAt l).map (fun n => (n, ())))
        (' ' :: '(' :: d1 :: d2 :: d3 :: d4 :: [')'])
        t.data.length).map (fun x => (x.1, x.2.1)) := by
    unfold fmOfLen
    rw [findFrom_app _ t.data _ (fun s hs hne => by
      rw [tryYearParenAt_app_ne t L hstr htp s _ hs hne]; rfl) 0, Nat.zero_add]
  by_cases hd1 : d1 = '1' ∨ d1 = '2'
  · have htb : tryYearParenAt (' ' :: '(' :: d1 :: d2 :: d3 :: d4 :: [')']) =
        some 7 := by
      rw [tryYearParenAt_b]
      exact if_pos ⟨hd1, hD2, hD3, hD4⟩
    have hfm : fmOfLen tryYearParenAt
        (t.data ++ ' ' :: '(' :: d1 :: d2 :: d3 :: d4 :: [')']) =
        some (t.data.length, 7) := by
      rw [hfmY]
      simp only [findFrom, htb, Option.map_some']
    have hsub : subYearParen
        (t.data ++ ' ' :: '(' :: d1 :: d2 :: d3 :: d4 :: [')']) = t.data := by
      unfold subYearParen
      rw [subAll_once _ _ t.data.length 7 hfm ?hdrop ?hnil]
      case hdrop =>
        rw [show t.data.length + max 7 1 =
          (t.data ++ ' ' :: '(' :: d1 :: d2 :: d3 :: d4 :: [')']).length from by
            rw [List.length_append]; rfl]
        exact List.drop_length _
      case hnil => rfl
      exact List.take_left _ _
    have hsub2 : subAnyParen t.data = t.data := by
      unfold subAnyParen
      apply subAll_id
      unfold fmOfLen
      rw [findFrom_none _ _ (fun s hs hne => by
        have := tryAnyParenAt_app_ne t L hstr htp s [] hs hne
        rw [List.append_nil] at this
        rw [this]; rfl) 0]
      rfl
    rw [hsub, hsub2, hself]
  · have htbn : tryYearParenAt (' ' :: '(' :: d1 :: d2 :: d3 :: d4 :: [')']) =
        none := by
      rw [tryYearParenAt_b]
      exact if_neg (fun hcon => hd1 hcon.1)
    have htpn : tryYearParenAt ('(' :: d1 :: d2 :: d3 :: d4 :: [')']) =
        none := by
      rw [tryYearParenAt_p]
      exact if_neg (fun hcon => hd1 hcon.1)
    have hfmn : fmOfLen tryYearParenAt
        (t.data ++ ' ' :: '(' :: d1 :: d2 :: d3 :: d4 :: [')']) = none := by
      rw [hfmY, findFrom_none]
      · rfl
      intro s hs hne
      rcases suffix7 hs hne with h | h | h | h | h | h | h <;> subst h
      · rw [htbn]; rfl
      · rw [htpn]; rfl
      · rw [tryYearParenAt_ne _ d1 _ (dropWhile_ws_digit hD1 _)
          (digit_ne_lparen hD1)]; rfl
      · rw [tryYearParenAt_ne _ d2 _ (dropWhile_ws_digit hD2 _)
          (digit_ne_lparen hD2)]; rfl
      · rw [tryYearParenAt_ne _ d3 _ (dropWhile_ws_digit hD3 _)
          (digit_ne_lparen hD3)]; rfl
      · rw [tryYearParenAt_ne _ d4 _ (dropWhile_ws_digit hD4 _)
          (digit_ne_lparen hD4)]; rfl
      · rw [tryYearParenAt_ne _ ')' _ (dropWhile_ws_rparen _) (by decide)]; rfl
    have hsub : subYearParen
        (t.data ++ ' ' :: '(' :: d1 :: d2 :: d3 :: d4 :: [')']) =
        t.data ++ ' ' :: '(' :: d1 :: d2 :: d3 :: d4 :: [')'] := by
      unfold subYearParen
      exact subAll_id _ _ hfmn
    have htA : tryAnyParenAt (' ' :: '(' :: d1 :: d2 :: d3 :: d4 :: [')']) =
        some 7 :=
      tryAnyParenAt_b d1 d2 d3 d4 (digit_ne_rparen hD1) (digit_ne_rparen hD2)
        (digit_ne_rparen hD3) (digit_ne_rparen hD4)
    have hfmA : fmOfLen tryAnyParenAt
        (t.data ++ ' ' :: '(' :: d1 :: d2 :: d3 :: d4 :: [')']) =
        some (t.data.length, 7) := by
      unfold fmOfLen
      rw [findFrom_app _ t.data _ (fun s hs hne => by
        rw [tryAnyParenAt_app_ne t L hstr htp s _ hs hne]; rfl) 0,
        Nat.zero_add]
      simp only [findFrom, htA, Option.map_some']
    have hsubA : subAnyParen
        (t.data ++ ' ' :: '(' :: d1 :: d2 :: d3 :: d4 :: [')']) = t.data := by
      unfold subAnyParen
      rw [subAll_once _ _ t.data.length 7 hfmA ?hdrop ?hnil]
      case hdrop =>
        rw [show t.data.length + max 7 1 =
          (t.data ++ ' ' :: '(' :: d1 :: d2 :: d3 :: d4 :: [')']).length from by
            rw [List.length_append]; rfl]
        exact List.drop_length _
      case hnil => rfl
      exact List.take_left _ _
    rw [hsub, hsubA, hself]

theorem basename_app (a b : List Char) (hb : ∀ c ∈ b, c ≠ '/') :
    basename ⟨a ++ '/' :: b⟩ = ⟨b⟩ := by
  unfold basename
  apply congrArg String.mk
  have hrev : (a ++ '/' :: b).reverse = b.reverse ++ '/' :: a.reverse := by
    simp [List.reverse_append]
  rw [show (⟨a ++ '/' :: b⟩ : String).data = a ++ '/' :: b from rfl, hrev]
  rw [takeWhile_app _ b.reverse '/' a.reverse (fun c hc => by
    simp [hb c (List.mem_reverse.mp hc)]) (by simp)]
  exact List.reverse_reverse b

theorem dirname_app (g : List Char) (c0 : Char) (f : List Char)
    (hc : c0 ≠ '/') (hf : ∀ c ∈ f, c ≠ '/') :
    dirname ⟨(g ++ [c0]) ++ '/' :: f⟩ = ⟨g ++ [c0]⟩ := by
  unfold dirname
  dsimp only
  have hrev : ((g ++ [c0]) ++ '/' :: f).reverse =
      f.reverse ++ '/' :: (c0 :: g.reverse) := by
    simp [List.reverse_append]
  rw [hrev]
  rw [takeWhile_app _ f.reverse '/' _ (fun c hc2 => by
    simp [hf c (List.mem_reverse.mp hc2)]) (by simp)]
  rw [if_neg (by
    simp only [List.length_append, List.length_cons, List.length_singleton,
      List.length_reverse]
    omega)]
  have htake : ((g ++ [c0]) ++ '/' :: f).take
      (((g ++ [c0]) ++ '/' :: f).length - f.reverse.length) =
      (g ++ [c0]) ++ ['/'] := by
    have hsplit : (g ++ [c0]) ++ '/' :: f = ((g ++ [c0]) ++ ['/']) ++ f := by
      simp
    rw [hsplit]
    rw [show (((g ++ [c0]) ++ ['/']) ++ f).length - f.reverse.length =
        ((g ++ [c0]) ++ ['/']).length from by
      simp only [List.length_append, List.length_reverse]
      omega]
    exact List.take_left _ _
  rw [htake]
  rw [if_neg (by
    intro hall
    have := List.all_eq_true.mp hall c0 (by simp)
    rw [decide_eq_true_eq] at this
    exact hc this)]
  apply congrArg String.mk
  have hrev2 : ((g ++ [c0]) ++ ['/']).reverse = '/' :: (c0 :: g.reverse) := by
    simp [List.reverse_append]
  rw [hrev2, List.dropWhile_cons, if_pos (by simp), List.dropWhile_cons,
    if_neg (by simp [hc])]
  simp [List.reverse_append]

theorem dropWhile_all (p : Char → Bool) (l : List Char)
    (h : ∀ c ∈ l, p c = true) : l.dropWhile p = [] := by
  induction l with
  | nil => rfl
  | cons c rest ih =>
    rw [List.dropWhile_cons, if_pos (h c (List.mem_cons_self _ _))]
    exact ih (fun d hd => h d (List.mem_cons_of_mem _ hd))

theorem splitext_concat (a m : List Char) (ext : String)
    (ha : a = [] ∨ ∃ a2, a = a2 ++ ['/'])
    (hm : m ≠ []) (hmc : ∀ c ∈ m, c ≠ '.' ∧ c ≠ '/')
    (hext : ext = "" ∨
      ∃ cs, ext.data = '.' :: cs ∧ ∀ c ∈ cs, c ≠ '.' ∧ c ≠ '/') :
    splitext ⟨a ++ m ++ ext.data⟩ = (⟨a ++ m⟩, ext) := by
  have hqm : ∀ c ∈ m.reverse,
      (fun c => decide (c ≠ '.' ∧ c ≠ '/')) c = true := by
    intro c hc
    simp [hmc c (List.mem_reverse.mp hc)]
  have hpm : ∀ c ∈ m.reverse, (fun c => decide (c ≠ '/')) c = true := by
    intro c hc
    simp [(hmc c (List.mem_reverse.mp hc)).2]
  obtain ⟨mh, mt, hmht⟩ : ∃ mh mt, m = mh :: mt := by
    cases m with
    | nil => exact absurd rfl hm
    | cons x xs => exact ⟨x, xs, rfl⟩
  rcases hext with hE | ⟨cs, hcs, hcsc⟩
  · rw [hE]
    rw [show ("" : String).data = [] from rfl, List.append_nil]
    unfold splitext
    dsimp only
    rw [drop_len_takeWhile]
    rcases ha with hA | ⟨a2, hA⟩
    · subst hA
      rw [List.nil_append]
      rw [dropWhile_all _ m.reverse hqm]
    · subst hA
      have hrev : ((a2 ++ ['/']) ++ m).reverse =
          m.reverse ++ '/' :: a2.reverse := by
        simp [List.reverse_append]
      rw [hrev]
      rw [dropWhile_app _ m.reverse '/' _ hqm (by simp)]
      split
      · rename_i rest heq
        injection heq with h1 _
        exact absurd h1 (by decide)
      · rfl
  · rw [show ext.data = '.' :: cs from hcs]
    have hext2 : ext = ⟨'.' :: cs⟩ := String.ext hcs
    unfold splitext
    dsimp only
    rw [drop_len_takeWhile]
    have hrev : (a ++ m ++ '.' :: cs).reverse =
        cs.reverse ++ '.' :: (m.reverse ++ a.reverse) := by
      simp [List.reverse_append]
    rw [hrev]
    have hqcs : ∀ c ∈ cs.reverse,
        (fun c => decide (c ≠ '.' ∧ c ≠ '/')) c = true := by
      intro c hc
      simp [hcsc c (List.mem_reverse.mp hc)]
    rw [dropWhile_app _ cs.reverse '.' _ hqcs (by simp)]
    rw [takeWhile_app _ cs.reverse '.' _ hqcs (by simp)]
    have hmid : (m.reverse ++ a.reverse).takeWhile
        (fun c => decide (c ≠ '/')) = m.reverse := by
      rcases ha with hA | ⟨a2, hA⟩
      · subst hA
        rw [List.reverse_nil, List.append_nil]
        exact takeWhile_all _ _ hpm
      · subst hA
        rw [show (a2 ++ ['/']).reverse = '/' :: a2.reverse from by
          simp [List.reverse_append]]
        exact takeWhile_app _ m.reverse '/' _ hpm (by simp)
    split
    · rename_i rest heq
      injection heq with h1 hrest
      subst hrest
      rw [hmid]
      rw [if_pos (List.any_eq_true.mpr ⟨mh, by
        rw [List.mem_reverse, hmht]; exact List.mem_cons_self _ _,
        by simp [(hmc mh (by rw [hmht]; exact List.mem_cons_self _ _)).1]⟩)]
      rw [hext2]
      have hxrev : (m.reverse ++ a.reverse).reverse = a ++ m := by
        simp
      rw [hxrev, List.reverse_reverse]
    · rename_i h2
      exact absurd rfl (h2 (m.reverse ++ a.reverse))

/-- The extension component of any `splitext` result: empty, or a dot
followed by dot-free, slash-free characters. -/
theorem splitext_snd_shape (p : String) :
    (splitext p).2 = "" ∨
      ∃ cs, (splitext p).2.data = '.' :: cs ∧ ∀ c ∈ cs, c ≠ '.' ∧ c ≠ '/' := by
  unfold splitext
  dsimp only
  split
  · split
    · right
      refine ⟨(p.data.reverse.takeWhile
        (fun c => decide (c ≠ '.' ∧ c ≠ '/'))).reverse, rfl, ?_⟩
      intro c hc
      rw [List.mem_reverse] at hc
      have := mem_takeWhile _ _ _ hc
      rw [decide_eq_true_eq] at this
      exact this
    · left; rfl
  · left; rfl

theorem pjoin_ne_root (a b : String) (ha1 : a ≠ "")
    (ha2 : strEnds "/" a = false) (hb : strStarts "/" b = false) :
    pjoin a b = a ++ "/" ++ b := by
  unfold pjoin
  rw [if_neg (by rw [hb]; simp), if_neg ?hcond]
  case hcond =>
    rintro (h | h)
    · exact ha1 h
    · rw [ha2] at h
      cases h

theorem isPrefixOf_self_app (l r : List Char) :
    List.isPrefixOf l (l ++ r) = true := by
  induction l with
  | nil => simp [List.isPrefixOf]
  | cons c cs ih => simp [List.isPrefixOf, ih]

theorem isPrefixOf_self (l : List Char) : List.isPrefixOf l l = true := by
  have := isPrefixOf_self_app l []
  rwa [List.append_nil] at this

theorem strEnds_app (x s : String) : strEnds x (s ++ x) = true := by
  unfold strEnds
  rw [data_append, List.reverse_append]
  exact isPrefixOf_self_app _ _

theorem occ_zero (q l : List Char) (h : ∀ c ∈ l, c ≠ '(') :
    occCount ('(' :: q) l = 0 := by
  induction l with
  | nil => rfl
  | cons c rest ih =>
    simp only [occCount]
    rw [if_neg ?hneg, ih (fun d hd => h d (List.mem_cons_of_mem _ hd))]
    case hneg =>
      intro hp
      simp only [List.isPrefixOf, Bool.and_eq_true, beq_iff_eq] at hp
      exact h c (List.mem_cons_self _ _) hp.1.symm

theorem occ_once (a q : List Char) (ha : ∀ c ∈ a, c ≠ '(')
    (hq : ∀ c ∈ q, c ≠ '(') :
    occCount ('(' :: q) (a ++ '(' :: q) = 1 := by
  induction a with
  | nil =>
    rw [List.nil_append]
    simp only [occCount]
    rw [if_pos (isPrefixOf_self ('(' :: q)), occ_zero q q hq]
  | cons c a2 ih =>
    rw [List.cons_append]
    simp only [occCount]
    rw [if_neg ?hneg, ih (fun d hd => ha d (List.mem_cons_of_mem _ hd))]
    case hneg =>
      intro hp
      simp only [List.isPrefixOf, Bool.and_eq_true, beq_iff_eq] at hp
      exact ha c (List.mem_cons_self _ _) hp.1.symm

/-- Movie branch of `_generate_plex_path` in closed form: with a bound title
and year, no language, and the id tag disabled, the result is
`dest/Title (Year)/Title (Year)<ext>`. -/
theorem gen_movie (api : TmdbApi) (cfg : Config) (orig : String)
    (mt : MediaType) (info : FileInfo) (t y : String)
    (htype : mt.type = "movie") (hser : mt.isSeries = false)
    (hti : info.title = some t) (hyi : info.year = some y)
    (hli : info.language = none)
    (hid : cfg.useTmdbIds = false ∨ natTruthy info.tmdbId = false)
    (hy0 : y ≠ "") (ht1 : cleanTitle t = t) :
    generatePlexPath api cfg orig info mt =
      pjoin (pjoin (pjoin cfg.rootPath cfg.filmFolder) (t ++ (" (" ++ y ++ ")")))
        (t ++ (" (" ++ y ++ ")") ++ "" ++ (splitext orig).2) := by
  have hd : destFolderFor api cfg mt =
      some (pjoin cfg.rootPath cfg.filmFolder) := by
    unfold destFolderFor
    rw [htype]
    simp
  have hidf : ¬(cfg.useTmdbIds = true ∧ natTruthy info.tmdbId = true) := by
    rcases hid with h | h <;> intro hc
    · rw [h] at hc; cases hc.1
    · rw [h] at hc; cases hc.2
  unfold generatePlexPath
  rw [hd, hti, hli, hyi, hser]
  dsimp only
  simp only [strTruthy, Bool.false_eq_true, if_false, decide_eq_true_eq,
    Option.getD_some]
  rw [ht1, if_pos hy0, if_neg hidf]

theorem strEnds_data (s : String) (A : List Char) (c : Char)
    (hs : s.data = A ++ [c]) (hc : c ≠ '/') : strEnds "/" s = false := by
  unfold strEnds
  rw [hs]
  show List.isPrefixOf ['/'] ((A ++ [c]).reverse) = false
  rw [List.reverse_append, List.reverse_singleton, List.singleton_append]
  exact slash_not_prefixOf_cons _ hc

theorem strStarts_data (s : String) (c : Char) (l : List Char)
    (hs : s.data = c :: l) (hc : c ≠ '/') : strStarts "/" s = false := by
  unfold strStarts
  rw [hs]
  exact slash_not_prefixOf_cons _ hc

theorem str_ne_data (s : String) (c : Char) (l : List Char)
    (hs : s.data = c :: l) : s ≠ "" := by
  intro h
  rw [h] at hs
  cases hs

set_option maxHeartbeats 1000000 in
/-- CLAIM C9 (amended) — for a movie-category record with a resolved
four-digit year whose (already clean, parenthesis-free) title survives the
cleanup, the generated folder name is the title followed by the
parenthesized year: it ends in `(YYYY)`, contains it exactly once, and
re-running extraction plus path building on the generated path reproduces
that path exactly. -/
theorem movie_year_once_and_idem (api : TmdbApi) (cfg : Config)
    (orig : String) (mt : MediaType) (info : FileInfo) (t y : String)
    (htype : mt.type = "movie") (hser : mt.isSeries = false)
    (hti : info.title = some t) (hyi : info.year = some y)
    (hli : info.language = none)
    (hid : cfg.useTmdbIds = false ∨ natTruthy info.tmdbId = false)
    (ht1 : cleanTitle t = t) (ht2 : t ≠ "")
    (htp : ∀ c ∈ t.data, c ≠ '(' ∧ c ≠ ')')
    (hy4 : y.data.length = 4) (hyd : ∀ c ∈ y.data, isDigitC c = true)
    (hdne : pjoin cfg.rootPath cfg.filmFolder ≠ "")
    (hdsl : strEnds "/" (pjoin cfg.rootPath cfg.filmFolder) = false) :
    basename (dirname (generatePlexPath api cfg orig info mt)) =
        t ++ (" (" ++ y ++ ")") ∧
    strEnds (" (" ++ y ++ ")")
        (basename (dirname (generatePlexPath api cfg orig info mt))) = true ∧
    occCount ('(' :: (y.data ++ [')']))
        (basename (dirname (generatePlexPath api cfg orig info mt))).data = 1 ∧
    generatePlexPath api cfg (generatePlexPath api cfg orig info mt)
        (extractFileInfo (generatePlexPath api cfg orig info mt) mt) mt =
      generatePlexPath api cfg orig info mt := by
  -- basic facts about the title and year
  have hclean : ∀ c ∈ t.data, cleanChar c := by
    rw [← ht1]
    exact cleanTitle_chars t
  have htpl : ∀ c ∈ t.data, c ≠ '(' := fun c hc => (htp c hc).1
  have hy0 : y ≠ "" := by
    intro he
    rw [he] at hy4
    simp at hy4
  have hstr : stripList (collapseWs ((t.data.map sepToSpace).map
      nonWordKeepParens)) = t.data := by
    conv_rhs => rw [← ht1]
    rfl
  have hselft : stripList t.data = t.data := by
    cases ht : t.data with
    | nil => exact absurd ht (str_data_ne t ht2)
    | cons c1 trest =>
      rcases List.eq_nil_or_concat trest with hr | ⟨m0, c2, hr⟩
      · subst hr
        exact stripList_single c1
          (head_stripList _ c1 [] (by rw [hstr, ht]))
      · rw [List.concat_eq_append] at hr
        subst hr
        have hh1 : isWs c1 = false :=
          head_stripList _ c1 (m0 ++ [c2]) (by rw [hstr, ht])
        have hh2 : isWs c2 = false :=
          getLast_stripList _ (c1 :: m0) c2
            (by rw [hstr, ht, List.cons_append])
        exact stripList_self c1 m0 c2 hh1 hh2
  -- the movie name and its character classes
  have hMdata : (t ++ (" (" ++ y ++ ")")).data =
      t.data ++ ' ' :: '(' :: (y.data ++ [')']) := by
    simp [data_append]
  have hMchars : ∀ c ∈ (t ++ (" (" ++ y ++ ")")).data,
      c ≠ '.' ∧ c ≠ '/' := by
    intro c hc
    rw [hMdata] at hc
    rcases mem_movieName t y c hc with hm | hm | hm | hm | hm
    · exact ⟨cleanChar_ne_dot (hclean c hm), cleanChar_ne_slash (hclean c hm)⟩
    · subst hm; exact ⟨by decide, by decide⟩
    · subst hm; exact ⟨by decide, by decide⟩
    · exact ⟨digit_ne_dot (hyd c hm), digit_ne_fslash (hyd c hm)⟩
    · subst hm; exact ⟨by decide, by decide⟩
  have hMne : (t ++ (" (" ++ y ++ ")")).data ≠ [] := by
    rw [hMdata]
    intro h
    rcases List.append_eq_nil.mp h with ⟨_, h2⟩
    cases h2
  have hextS := splitext_snd_shape orig
  have hFchars : ∀ c ∈ (t ++ (" (" ++ y ++ ")")).data ++
      (splitext orig).2.data, c ≠ '/' := by
    intro c hc
    rcases List.mem_append.mp hc with hm | hm
    · exact (hMchars c hm).2
    · rcases hextS with hE | ⟨cs, hcs, hcsc⟩
      · rw [hE] at hm
        cases hm
      · rw [hcs] at hm
        rcases List.mem_cons.mp hm with h1 | h1
        · subst h1; decide
        · exact (hcsc c h1).2
  -- head character of the title
  obtain ⟨c1, trest, htc⟩ : ∃ c1 trest, t.data = c1 :: trest := by
    cases ht : t.data with
    | nil => exact absurd ht (str_data_ne t ht2)
    | cons a l => exact ⟨a, l, rfl⟩
  have hc1 : c1 ≠ '/' := cleanChar_ne_slash (hclean c1 (by rw [htc]; exact List.mem_cons_self _ _))
  -- flatten the generated path
  have hgen := gen_movie api cfg orig mt info t y htype hser hti hyi hli hid
    hy0 ht1
  have hMstart : strStarts "/" (t ++ (" (" ++ y ++ ")")) = false := by
    apply strStarts_data _ c1 (trest ++ ' ' :: '(' :: (y.data ++ [')']))
    · rw [hMdata, htc, List.cons_append]
    · exact hc1
  have hFstart : strStarts "/" (t ++ (" (" ++ y ++ ")") ++ "" ++
      (splitext orig).2) = false := by
    apply strStarts_data _ c1 (trest ++ ' ' :: '(' :: (y.data ++ [')']) ++
      (splitext orig).2.data)
    · simp [data_append, hMdata, htc]
    · exact hc1
  have hpj1 : pjoin (pjoin cfg.rootPath cfg.filmFolder)
      (t ++ (" (" ++ y ++ ")")) =
      pjoin cfg.rootPath cfg.filmFolder ++ "/" ++ (t ++ (" (" ++ y ++ ")")) :=
    pjoin_ne_root _ _ hdne hdsl hMstart
  have hsf_data : (pjoin cfg.rootPath cfg.filmFolder ++ "/" ++
      (t ++ (" (" ++ y ++ ")"))).data =
      ((pjoin cfg.rootPath cfg.filmFolder).data ++
        '/' :: (t.data ++ ' ' :: '(' :: y.data)) ++ [')'] := by
    simp [data_append, hMdata]
  have hsf_ne : pjoin cfg.rootPath cfg.filmFolder ++ "/" ++
      (t ++ (" (" ++ y ++ ")")) ≠ "" := by
    intro h
    have := congrArg String.data h
    rw [hsf_data] at this
    rcases List.append_eq_nil.mp this with ⟨_, h2⟩
    cases h2
  have hsf_sl : strEnds "/" (pjoin cfg.rootPath cfg.filmFolder ++ "/" ++
      (t ++ (" (" ++ y ++ ")"))) = false :=
    strEnds_data _ _ ')' hsf_data (by decide)
  have hpj2 : pjoin (pjoin cfg.rootPath cfg.filmFolder ++ "/" ++
      (t ++ (" (" ++ y ++ ")")))
      (t ++ (" (" ++ y ++ ")") ++ "" ++ (splitext orig).2) =
      pjoin cfg.rootPath cfg.filmFolder ++ "/" ++ (t ++ (" (" ++ y ++ ")")) ++
        "/" ++ (t ++ (" (" ++ y ++ ")") ++ "" ++ (splitext orig).2) :=
    pjoin_ne_root _ _ hsf_ne hsf_sl hFstart
  have hp1 : generatePlexPath api cfg orig info mt =
      pjoin cfg.rootPath cfg.filmFolder ++ "/" ++ (t ++ (" (" ++ y ++ ")")) ++
        "/" ++ (t ++ (" (" ++ y ++ ")") ++ "" ++ (splitext orig).2) := by
    rw [hgen, hpj1, hpj2]
  -- data decompositions of the generated path
  have hPdata : (generatePlexPath api cfg orig info mt).data =
      ((pjoin cfg.rootPath cfg.filmFolder).data ++
        '/' :: (t ++ (" (" ++ y ++ ")")).data) ++
      '/' :: ((t ++ (" (" ++ y ++ ")")).data ++ (splitext orig).2.data) := by
    rw [hp1]
    simp [data_append]
  have hPfull : (generatePlexPath api cfg orig info mt).data =
      (((pjoin cfg.rootPath cfg.filmFolder).data ++
        '/' :: (t.data ++ ' ' :: '(' :: y.data)) ++ [')']) ++
      '/' :: ((t ++ (" (" ++ y ++ ")")).data ++ (splitext orig).2.data) := by
    rw [hPdata, hMdata]
    simp [data_append]
  -- the folder name of the generated path
  have hdir : dirname (generatePlexPath api cfg orig info mt) =
      ⟨(pjoin cfg.rootPath cfg.filmFolder).data ++
        '/' :: (t ++ (" (" ++ y ++ ")")).data⟩ := by
    rw [String.ext hPfull]
    rw [dirname_app _ ')' _ (by decide) hFchars]
    apply String.ext
    rw [hMdata]
    simp
  have hfolder : basename (dirname (generatePlexPath api cfg orig info mt)) =
      t ++ (" (" ++ y ++ ")") := by
    rw [hdir]
    rw [basename_app _ _ (fun c hc => (hMchars c hc).2)]
  refine ⟨hfolder, ?_, ?_, ?_⟩
  · rw [hfolder]
    exact strEnds_app _ t
  · rw [hfolder, hMdata]
    rw [show t.data ++ ' ' :: '(' :: (y.data ++ [')']) =
        (t.data ++ [' ']) ++ '(' :: (y.data ++ [')']) from by simp]
    apply occ_once
    · intro c hc
      rcases List.mem_append.mp hc with hm | hm
      · exact htpl c hm
      · rw [List.mem_singleton] at hm
        subst hm
        decide
    · intro c hc
      rcases List.mem_append.mp hc with hm | hm
      · exact digit_ne_lparen (hyd c hm)
      · rw [List.mem_singleton] at hm
        subst hm
        decide
  · -- idempotence
    have hbase : basename (generatePlexPath api cfg orig info mt) =
        ⟨(t ++ (" (" ++ y ++ ")")).data ++ (splitext orig).2.data⟩ := by
      rw [String.ext hPdata]
      exact basename_app _ _ hFchars
    have hsplitF := splitext_concat [] (t ++ (" (" ++ y ++ ")")).data
      (splitext orig).2 (Or.inl rfl) hMne hMchars hextS
    simp only [List.nil_append] at hsplitF
    have hlang2 : findLanguage ⟨(t ++ (" (" ++ y ++ ")")).data⟩ = none := by
      rw [show (⟨(t ++ (" (" ++ y ++ ")")).data⟩ : String) =
        ⟨t.data ++ ' ' :: '(' :: (y.data ++ [')'])⟩ from String.ext hMdata]
      exact findLanguage_movieName t y hclean hyd
    have hpy : findParenYear (t ++ (" (" ++ y ++ ")")) = some y := by
      rw [show (t ++ (" (" ++ y ++ ")")) =
        ⟨t.data ++ ' ' :: '(' :: (y.data ++ [')'])⟩ from String.ext hMdata]
      exact findParenYear_movieName t y htpl hy4 hyd
    have htitle0 : stripList (subAnyParen (subYearParen
        (t ++ (" (" ++ y ++ ")")).data)) = t.data := by
      rw [hMdata]
      exact title_clean_movieName t y _ hstr htpl hy4 hyd hselft
    have hstt : strTruthy (some t) = true := by
      simp [strTruthy, ht2]
    have hinfo : extractFileInfo (generatePlexPath api cfg orig info mt) mt =
        { title := some t, year := some y } := by
      unfold extractFileInfo
      dsimp only
      rw [hbase, hfolder]
      rw [hsplitF]
      dsimp only
      rw [hlang2, hpy, htitle0]
      rw [show (⟨t.data⟩ : String) = t from rfl]
      simp only [hser, Bool.false_eq_true, if_false, hstt,
        not_true, false_and, and_false, if_true, not_false_eq_true, true_and]
    have hsplitP : splitext (generatePlexPath api cfg orig info mt) =
        (⟨((pjoin cfg.rootPath cfg.filmFolder).data ++
          '/' :: (t ++ (" (" ++ y ++ ")")).data) ++
          '/' :: (t ++ (" (" ++ y ++ ")")).data⟩, (splitext orig).2) := by
      have := splitext_concat
        (((pjoin cfg.rootPath cfg.filmFolder).data ++
          '/' :: (t ++ (" (" ++ y ++ ")")).data) ++ ['/'])
        (t ++ (" (" ++ y ++ ")")).data (splitext orig).2
        (Or.inr ⟨_, rfl⟩) hMne hMchars hextS
      rw [show ((((pjoin cfg.rootPath cfg.filmFolder).data ++
          '/' :: (t ++ (" (" ++ y ++ ")")).data) ++ ['/']) ++
          (t ++ (" (" ++ y ++ ")")).data ++ (splitext orig).2.data) =
        ((pjoin cfg.rootPath cfg.filmFolder).data ++
          '/' :: (t ++ (" (" ++ y ++ ")")).data) ++
        '/' :: ((t ++ (" (" ++ y ++ ")")).data ++ (splitext orig).2.data)
        from by simp] at this
      rw [show ((((pjoin cfg.rootPath cfg.filmFolder).data ++
          '/' :: (t ++ (" (" ++ y ++ ")")).data) ++ ['/']) ++
          (t ++ (" (" ++ y ++ ")")).data) =
        ((pjoin cfg.rootPath cfg.filmFolder).data ++
          '/' :: (t ++ (" (" ++ y ++ ")")).data) ++
        '/' :: (t ++ (" (" ++ y ++ ")")).data from by simp] at this
      have hP1str : generatePlexPath api cfg orig info mt =
          ⟨((pjoin cfg.rootPath cfg.filmFolder).data ++
            '/' :: (t ++ (" (" ++ y ++ ")")).data) ++
            '/' :: ((t ++ (" (" ++ y ++ ")")).data ++
              (splitext orig).2.data)⟩ := String.ext hPdata
      rw [← hP1str] at this
      exact this
    rw [gen_movie api cfg (generatePlexPath api cfg orig info mt) mt
      (extractFileInfo (generatePlexPath api cfg orig info mt) mt) t y
      htype hser (by rw [hinfo]) (by rw [hinfo]) (by rw [hinfo])
      (Or.inr (by rw [hinfo]; rfl)) hy0 ht1]
    rw [hsplitP, hgen, hpj1, hpj2]

/-- Counterexample to C9 — the movie file `(2009).mp4` inside the folder
`Avatar (2009)`: title extraction falls back to the parent folder name
(which itself carries a year tag), the built folder name
`Avatar (2009) (2009)` contains the parenthesized year twice, and re-running
extraction plus path building on the generated path produces a different
path, so the build is not idempotent. -/
theorem movie_year_idem_cex :
    (extractFileInfo "/r/Movies/Avatar (2009)/(2009).mp4"
      ⟨"movie", false, false, none⟩).year = some "2009" ∧
    generatePlexPath offlineApi cfgA "/r/Movies/Avatar (2009)/(2009).mp4"
      (extractFileInfo "/r/Movies/Avatar (2009)/(2009).mp4"
        ⟨"movie", false, false, none⟩) ⟨"movie", false, false, none⟩ =
      "/r/Movies/Avatar (2009) (2009)/Avatar (2009) (2009).mp4" ∧
    occCount "(2009)".data (basename (dirname
      "/r/Movies/Avatar (2009) (2009)/Avatar (2009) (2009).mp4")).data = 2 ∧
    generatePlexPath offlineApi cfgA
      "/r/Movies/Avatar (2009) (2009)/Avatar (2009) (2009).mp4"
      (extractFileInfo "/r/Movies/Avatar (2009) (2009)/Avatar (2009) (2009).mp4"
        ⟨"movie", false, false, none⟩) ⟨"movie", false, false, none⟩ ≠
      "/r/Movies/Avatar (2009) (2009)/Avatar (2009) (2009).mp4" := by
  refine ⟨by decide, by decide, by decide, by decide⟩

/-- Witness instance of C9's amended statement at `Avatar` / `2009`. -/
theorem movie_year_once_and_idem_witness :
    basename (dirname (generatePlexPath offlineApi cfgA "/dl/avatar.mp4"
        { title := some "Avatar", year := some "2009" }
        ⟨"movie", false, false, none⟩)) = "Avatar" ++ (" (" ++ "2009" ++ ")") ∧
    strEnds (" (" ++ "2009" ++ ")")
        (basename (dirname (generatePlexPath offlineApi cfgA "/dl/avatar.mp4"
          { title := some "Avatar", year := some "2009" }
          ⟨"movie", false, false, none⟩))) = true ∧
    occCount ('(' :: ("2009".data ++ [')']))
        (basename (dirname (generatePlexPath offlineApi cfgA "/dl/avatar.mp4"
          { title := some "Avatar", year := some "2009" }
          ⟨"movie", false, false, none⟩))).data = 1 ∧
    generatePlexPath offlineApi cfgA
        (generatePlexPath offlineApi cfgA "/dl/avatar.mp4"
          { title := some "Avatar", year := some "2009" }
          ⟨"movie", false, false, none⟩)
        (extractFileInfo (generatePlexPath offlineApi cfgA "/dl/avatar.mp4"
          { title := some "Avatar", year := some "2009" }
          ⟨"movie", false, false, none⟩) ⟨"movie", false, false, none⟩)
        ⟨"movie", false, false, none⟩ =
      generatePlexPath offlineApi cfgA "/dl/avatar.mp4"
        { title := some "Avatar", year := some "2009" }
        ⟨"movie", false, false, none⟩ :=
  movie_year_once_and_idem offlineApi cfgA "/dl/avatar.mp4"
    ⟨"movie", false, false, none⟩
    { title := some "Avatar", year := some "2009" } "Avatar" "2009"
    rfl rfl rfl rfl rfl (Or.inl rfl) (by decide) (by decide) (by decide)
    (by decide) (by decide) (by decide) (by decide)

end PlexSpec
